import Mathlib

/-!
Verification of the `creeper` Minecraft package manager core against its
specification.  The Rust sources are shallowly embedded: pure functions become
Lean functions, the stateful content-addressed store (CAS) becomes explicit
state passing over a `StorageState`, hashing is parametric in a hash oracle,
and fallible code returns `Except`.
-/

namespace Creeper

/-- A hash algorithm supported by the store (`HashFunc` in `checksum.rs`). -/
inductive HashFunc
| blake3
| sha1
| sha256
deriving DecidableEq, Repr

/-- A tagged digest `(algorithm, hex)` (`Checksum` in `checksum.rs`). -/
structure Checksum where
  function : HashFunc
  hex_hash : String
deriving DecidableEq, Repr

/-- `Checksum::blake3` in `checksum.rs`. -/
def Checksum.blake3 (h : String) : Checksum := ⟨HashFunc.blake3, h⟩

/-- `Checksum::sha1` in `checksum.rs`. -/
def Checksum.sha1 (h : String) : Checksum := ⟨HashFunc.sha1, h⟩

/-- `Checksum::sha256` in `checksum.rs`. -/
def Checksum.sha256 (h : String) : Checksum := ⟨HashFunc.sha256, h⟩

/-- File contents, modelled as a list of bytes. -/
abbrev Blob := List Nat

/-- A filesystem path, modelled as a string. -/
abbrev Path := String

/-- A hash oracle: assigns each algorithm a digest function over file
contents.  The program computes real BLAKE3/SHA-1/SHA-256 digests; every
development below is parametric in the oracle. -/
abbrev Hasher := HashFunc → Blob → String

/-- Metadata row of a stored blob (`Artifact` in `storage.rs`). -/
structure Artifact where
  blake3 : String
  name : String
  src : String
  len : Nat
  sha1 : Option String
  sha256 : Option String
  md5 : Option String
deriving DecidableEq, Repr

/-- `Artifact::new` in `storage.rs`: no secondary digests. -/
def Artifact.new (blake3 name src : String) (len : Nat) : Artifact :=
  ⟨blake3, name, src, len, none, none, none⟩

/-- `Artifact::checksum` in `storage.rs`: the BLAKE3 digest followed by the
present secondary digests (`md5` is not yielded by the iterator). -/
def Artifact.checksumList (a : Artifact) : List Checksum :=
  [Checksum.blake3 a.blake3]
    ++ (a.sha1.map Checksum.sha1).toList
    ++ (a.sha256.map Checksum.sha256).toList

/-- `Artifact::has_checksum` in `storage.rs`. -/
def Artifact.has_checksum (a : Artifact) (f : HashFunc) : Bool :=
  match f with
  | .blake3 => true
  | .sha1 => a.sha1.isSome
  | .sha256 => a.sha256.isSome

/-- `Artifact::affix_checksum` in `storage.rs`: a BLAKE3 checksum is ignored,
secondary checksums overwrite the corresponding column. -/
def Artifact.affix_checksum (a : Artifact) (c : Checksum) : Artifact :=
  match c.function with
  | .blake3 => a
  | .sha1 => { a with sha1 := some c.hex_hash }
  | .sha256 => { a with sha256 := some c.hex_hash }

/-- Modelled from the spec: `creeper_local_data` is referenced by
`storage.rs` but its definition is not among the provided sources; the spec
fixes the CAS layout under the user's local data directory.  The base is an
opaque constant here. -/
def creeperLocalData : Path := "local-data"

/-- Modelled from the spec: `creeper_cache` is referenced by `storage.rs`
but its definition is not among the provided sources; download staging lives
under the user's cache directory. -/
def creeperCache : Path := "cache"

/-- Modelled from the spec: `creeper_minecraft` is referenced by `lock.rs`
but its definition is not among the provided sources; it is the instance's
Minecraft directory. -/
def creeperMinecraft : Path := "minecraft"

/-- `Artifact::storage_path` in `storage.rs`:
`<local-data>/storage/<blake3 prefix of length 2>/<blake3>`. -/
def storagePath (blake3 : String) : Path :=
  creeperLocalData ++ "/storage/" ++ blake3.take 2 ++ "/" ++ blake3

/-- The filesystem, as an association list from paths to contents. -/
abbrev FS := List (Path × Blob)

/-- Contents of the file at `p`, if present. -/
def lookupFS (fs : FS) (p : Path) : Option Blob :=
  match fs with
  | [] => none
  | (q, b) :: rest => if q = p then some b else lookupFS rest p

/-- Write `b` at `p`, overwriting an existing file in place. -/
def insertFS (fs : FS) (p : Path) (b : Blob) : FS :=
  match fs with
  | [] => [(p, b)]
  | (q, c) :: rest => if q = p then (p, b) :: rest else (q, c) :: insertFS rest p b

/-- Remove the file at `p`. -/
def eraseFS (fs : FS) (p : Path) : FS :=
  match fs with
  | [] => []
  | (q, c) :: rest => if q = p then eraseFS rest p else (q, c) :: eraseFS rest p

/-- Errors surfaced by the embedded operations (`anyhow` errors in the
sources, one constructor per `bail!`/`ok_or` site). -/
inductive Err
| brokenFile (file : Path) (checksum : Checksum)
| incorrectChecksum (checksum : Checksum) (file : Path)
| affixNonexistent
| fileNotFound (file : Path)
| mcJarUnspecified
| assetIndexUnspecified
| mainClassUnspecified
deriving DecidableEq, Repr

/-- `Checksum::check` in `checksum.rs`: recompute the digest of the file and
compare; opening a missing file is an I/O error. -/
def Checksum.check (c : Checksum) (H : Hasher) (fs : FS) (file : Path) : Except Err Bool :=
  match lookupFS fs file with
  | none => .error (.fileNotFound file)
  | some b => .ok (H c.function b == c.hex_hash)

/-- State of the CAS: the SQLite index rows plus the filesystem. -/
structure StorageState where
  index : List Artifact
  fs : FS
deriving DecidableEq, Repr

/-- Does the index column named by `c.function` hold `c.hex_hash` on row
`a`?  (`SELECT * FROM artifact WHERE <col> = ?` in `find_checksum`.) -/
def columnMatches (c : Checksum) (a : Artifact) : Bool :=
  match c.function with
  | .blake3 => a.blake3 == c.hex_hash
  | .sha1 => a.sha1 == some c.hex_hash
  | .sha256 => a.sha256 == some c.hex_hash

/-- `StorageManager::find_checksum` in `storage.rs`. -/
def findChecksumRow (st : StorageState) (c : Checksum) : Option Artifact :=
  st.index.find? (columnMatches c)

/-- `StorageManager::find` in `storage.rs`: lookup by primary BLAKE3 key. -/
def findArtifact (st : StorageState) (blake3 : String) : Option Artifact :=
  st.index.find? (fun a => a.blake3 == blake3)

/-- `StorageManager::add` in `storage.rs`: a duplicate add is skipped,
otherwise the row is inserted. -/
def addArtifact (st : StorageState) (a : Artifact) : StorageState :=
  match findArtifact st a.blake3 with
  | some _ => st
  | none => { st with index := st.index ++ [a] }

/-- `mv` in `util.rs`: `File::create(&dst)` truncates or creates the
destination, then the source is renamed onto it.  The cross-device
copy-and-delete fallback has the same filesystem effect. -/
def mvFS (fs : FS) (src dst : Path) : Except Err Unit × FS :=
  let fs1 := insertFS fs dst []
  match lookupFS fs1 src with
  | none => (.error (.fileNotFound src), fs1)
  | some b => (.ok (), insertFS (eraseFS fs1 src) dst b)

/-- The loop of `StorageManager::affix_checksum` in `storage.rs`: checksums
whose column is already present are skipped, the rest are verified against
the stored blob and affixed; a mismatch aborts. -/
def affixLoop (H : Hasher) (fs : FS) (file : Path) :
    Artifact → Bool → List Checksum → Except Err (Artifact × Bool)
  | art, added, [] => .ok (art, added)
  | art, added, c :: rest =>
    if art.has_checksum c.function then affixLoop H fs file art added rest
    else
      match c.check H fs file with
      | .error e => .error e
      | .ok true => affixLoop H fs file (art.affix_checksum c) true rest
      | .ok false => .error (.incorrectChecksum c file)

/-- The `UPDATE artifact SET sha1, sha256, md5 WHERE blake3` statement in
`affix_checksum`. -/
def updateChecksumColumns (rows : List Artifact) (blake3 : String) (art : Artifact) :
    List Artifact :=
  rows.map fun r =>
    if r.blake3 == blake3 then { r with sha1 := art.sha1, sha256 := art.sha256, md5 := art.md5 }
    else r

/-- `StorageManager::affix_checksum` in `storage.rs`. -/
def affixChecksum (H : Hasher) (st : StorageState) (blake3 : String)
    (checksum : List Checksum) : Except Err Artifact × StorageState :=
  match findArtifact st blake3 with
  | none => (.error .affixNonexistent, st)
  | some art =>
    match affixLoop H st.fs (storagePath art.blake3) art false checksum with
    | .error e => (.error e, st)
    | .ok (art2, false) => (.ok art2, st)
    | .ok (art2, true) =>
      (.ok art2, { st with index := updateChecksumColumns st.index blake3 art2 })

/-- The verification loop of `StorageManager::store` in `storage.rs`. -/
def storeLoop (H : Hasher) (fs : FS) (file : Path) (blake3 : String) :
    Artifact → List Checksum → Except Err Artifact
  | art, [] => .ok art
  | art, c :: rest =>
    if c.function == HashFunc.blake3 && c.hex_hash != blake3 then
      .error (.brokenFile file c)
    else
      match c.check H fs file with
      | .error e => .error e
      | .ok false => .error (.brokenFile file c)
      | .ok true => storeLoop H fs file blake3 (art.affix_checksum c) rest

/-- `StorageManager::store` in `storage.rs`: hash the file; if the digest is
indexed, affix instead; otherwise verify every supplied checksum, move the
file into the store, and insert the row. -/
def store (H : Hasher) (st : StorageState) (file : Path) (name src : String)
    (checksum : List Checksum) : Except Err Artifact × StorageState :=
  match lookupFS st.fs file with
  | none => (.error (.fileNotFound file), st)
  | some content =>
    let blake3 := H HashFunc.blake3 content
    match findArtifact st blake3 with
    | some _ => affixChecksum H st blake3 checksum
    | none =>
      let art0 := Artifact.new blake3 name src content.length
      match storeLoop H st.fs file blake3 art0 checksum with
      | .error e => (.error e, st)
      | .ok art =>
        match mvFS st.fs file (storagePath blake3) with
        | (.error e, fs2) => (.error e, { st with fs := fs2 })
        | (.ok _, fs2) => (.ok art, addArtifact { st with fs := fs2 } art)

/-- Byte contents of a string (`src.as_bytes()` in `download`). -/
def strBytes (s : String) : Blob := s.toList.map Char.toNat

/-- The download staging path `<cache>/<blake3(url)>` in `download`. -/
def cachePath (H : Hasher) (src : String) : Path :=
  creeperCache ++ "/" ++ H HashFunc.blake3 (strBytes src)

/-- The short-circuit loop of `download` in `storage.rs`: the first supplied
checksum whose column matches an existing index row. -/
def firstChecksumMatch (st : StorageState) : List Checksum → Option Artifact
  | [] => none
  | c :: rest =>
    match findChecksumRow st c with
    | some art => some art
    | none => firstChecksumMatch st rest

/-- `download` in `storage.rs` (`StorageManage` impl).  The `Bool` result
records whether an HTTP body transfer was performed; `http` maps a URL to
the fetched body. -/
def download (H : Hasher) (http : String → Blob) (st : StorageState)
    (name src : String) (len : Option Nat) (checksum : List Checksum) :
    Except Err Artifact × StorageState × Bool :=
  match firstChecksumMatch st checksum with
  | some art =>
    let out := affixChecksum H st art.blake3 checksum
    (out.1, out.2, false)
  | none =>
    let path := cachePath H src
    let body := http src
    let st1 : StorageState := { st with fs := insertFS st.fs path body }
    let out := store H st1 path name src checksum
    (out.1, out.2, true)

/-- The fall-through tail of `retrieve` in `storage.rs`: download using the
artifact's own metadata, then return the stored path. -/
def retrieveDownload (H : Hasher) (http : String → Blob) (st : StorageState)
    (artifact : Artifact) : Except Err Path × StorageState × Bool :=
  match download H http st artifact.name artifact.src (some artifact.len)
      artifact.checksumList with
  | (.error e, st2, httpd) => (.error e, st2, httpd)
  | (.ok art, st2, httpd) => (.ok (storagePath art.blake3), st2, httpd)

/-- `retrieve` in `storage.rs` (`StorageManage` impl): a found row whose blob
passes BLAKE3 verification is returned directly; otherwise fall through to
`download`. -/
def retrieve (H : Hasher) (http : String → Blob) (st : StorageState)
    (artifact : Artifact) : Except Err Path × StorageState × Bool :=
  let b3 := Checksum.blake3 artifact.blake3
  match findChecksumRow st b3 with
  | some found =>
    match b3.check H st.fs (storagePath found.blake3) with
    | .error e => (.error e, st, false)
    | .ok true => (.ok (storagePath found.blake3), st, false)
    | .ok false => retrieveDownload H http st artifact
  | none => retrieveDownload H http st artifact

/-- A pre-release or build identifier: numeric or alphanumeric
(`Identifier` in the `semver` crate). -/
inductive PreId
| num (n : Nat)
| alpha (s : String)
deriving DecidableEq, Repr

/-- Three-way comparison on `Nat` (`Ord` on `u64`). -/
def ncmp (a b : Nat) : Ordering :=
  if a < b then .lt else if b < a then .gt else .eq

/-- Ordering of one identifier, per the SemVer precedence rules implemented
by the `semver` crate: numeric identifiers order numerically and sort below
alphanumeric ones, which order lexically. -/
def preIdCompare : PreId → PreId → Ordering
  | .num a, .num b => ncmp a b
  | .num _, .alpha _ => .lt
  | .alpha _, .num _ => .gt
  | .alpha a, .alpha b => compare a b

/-- Lexicographic ordering of dot-separated identifier lists; a longer list
with an equal prefix sorts higher.  This is also the `semver` crate's
ordering of build metadata, where absent metadata sorts first. -/
def preIdsCompare : List PreId → List PreId → Ordering
  | [], [] => .eq
  | [], _ :: _ => .lt
  | _ :: _, [] => .gt
  | a :: x, b :: y => (preIdCompare a b).then (preIdsCompare x y)

/-- The `semver` crate's `Ord` on `Prerelease`: absence of a pre-release
sorts above any pre-release. -/
def preCompare : List PreId → List PreId → Ordering
  | [], [] => .eq
  | [], _ :: _ => .gt
  | _ :: _, [] => .lt
  | a :: x, b :: y => preIdsCompare (a :: x) (b :: y)

/-- A semver version (`semver::Version`): `MAJOR.MINOR.PATCH` with optional
pre-release and build metadata. -/
structure Version where
  major : Nat
  minor : Nat
  patch : Nat
  pre : List PreId
  build : List PreId
deriving DecidableEq, Repr

/-- `Version::new` in the `semver` crate: empty pre-release and build. -/
def Version.new (major minor patch : Nat) : Version :=
  ⟨major, minor, patch, [], []⟩

/-- The `semver` crate's `Ord` on `Version`: numeric triple, then
pre-release precedence, then build metadata as a total-order tiebreaker. -/
def Version.comp (a b : Version) : Ordering :=
  (ncmp a.major b.major).then
    ((ncmp a.minor b.minor).then
      ((ncmp a.patch b.patch).then
        ((preCompare a.pre b.pre).then (preIdsCompare a.build b.build))))

/-- Strict version order, as a boolean. -/
def vltB (a b : Version) : Bool := Version.comp a b == .lt

/-- Non-strict version order, as a boolean. -/
def vleB (a b : Version) : Bool := Version.comp a b != .gt

/-- An interval bound over versions (`Bound` in `pubgrub::Ranges`). -/
inductive VBound
| unbounded
| included (v : Version)
| excluded (v : Version)
deriving DecidableEq, Repr

/-- Semantic model of `pubgrub::Ranges<semver::Version>` restricted to the
fragment `pubgrub.rs` constructs: every range built there is an intersection
of half-bounded intervals and singletons, hence one interval. -/
structure VRanges where
  lo : VBound
  hi : VBound
deriving DecidableEq, Repr

/-- Is `v` admitted by the lower bound? -/
def loOk (lo : VBound) (v : Version) : Bool :=
  match lo with
  | .unbounded => true
  | .included l => vleB l v
  | .excluded l => vltB l v

/-- Is `v` admitted by the upper bound? -/
def hiOk (hi : VBound) (v : Version) : Bool :=
  match hi with
  | .unbounded => true
  | .included h => vleB v h
  | .excluded h => vltB v h

/-- `Ranges::contains`. -/
def VRanges.containsB (r : VRanges) (v : Version) : Bool :=
  loOk r.lo v && hiOk r.hi v

/-- `Ranges::full`. -/
def VRanges.full : VRanges := ⟨.unbounded, .unbounded⟩

/-- `Ranges::singleton`. -/
def VRanges.singleton (v : Version) : VRanges := ⟨.included v, .included v⟩

/-- `Ranges::higher_than`. -/
def VRanges.higherThan (v : Version) : VRanges := ⟨.included v, .unbounded⟩

/-- `Ranges::strictly_higher_than`. -/
def VRanges.strictlyHigherThan (v : Version) : VRanges := ⟨.excluded v, .unbounded⟩

/-- `Ranges::lower_than`. -/
def VRanges.lowerThan (v : Version) : VRanges := ⟨.unbounded, .included v⟩

/-- `Ranges::strictly_lower_than`. -/
def VRanges.strictlyLowerThan (v : Version) : VRanges := ⟨.unbounded, .excluded v⟩

/-- The stricter of two lower bounds. -/
def loMax (x y : VBound) : VBound :=
  match x, y with
  | .unbounded, y => y
  | x, .unbounded => x
  | .included a, .included b => if vltB a b then .included b else .included a
  | .included a, .excluded b => if vltB b a then .included a else .excluded b
  | .excluded a, .included b => if vltB a b then .included b else .excluded a
  | .excluded a, .excluded b => if vltB a b then .excluded b else .excluded a

/-- The stricter of two upper bounds. -/
def hiMin (x y : VBound) : VBound :=
  match x, y with
  | .unbounded, y => y
  | x, .unbounded => x
  | .included a, .included b => if vltB a b then .included a else .included b
  | .included a, .excluded b => if vltB a b then .included a else .excluded b
  | .excluded a, .included b => if vltB b a then .included b else .excluded a
  | .excluded a, .excluded b => if vltB a b then .excluded a else .excluded b

/-- `Ranges::intersection`, on the interval model. -/
def VRanges.intersection (r s : VRanges) : VRanges :=
  ⟨loMax r.lo s.lo, hiMin r.hi s.hi⟩

/-- `ranges_greater_eq` in `pubgrub.rs`: absent components default to 0. -/
def rangesGreaterEq (major : Nat) (minor patch : Option Nat) : VRanges :=
  VRanges.higherThan (Version.new major (minor.getD 0) (patch.getD 0))

/-- `ranges_less` in `pubgrub.rs`: absent components default to 0. -/
def rangesLess (major : Nat) (minor patch : Option Nat) : VRanges :=
  VRanges.strictlyLowerThan (Version.new major (minor.getD 0) (patch.getD 0))

/-- `ranges_exact` in `pubgrub.rs`; `none` models the `panic!` on a
comparator with a patch but no minor. -/
def rangesExact (major : Nat) (minor patch : Option Nat) : Option VRanges :=
  match minor, patch with
  | none, none =>
    some ((rangesGreaterEq major (some 0) (some 0)).intersection
      (rangesLess (major + 1) (some 0) (some 0)))
  | none, some _ => none
  | some minor, none =>
    some ((rangesGreaterEq major (some minor) (some 0)).intersection
      (rangesLess major (some (minor + 1)) (some 0)))
  | some minor, some patch => some (VRanges.singleton (Version.new major minor patch))

/-- `ranges_greater` in `pubgrub.rs`. -/
def rangesGreater (major : Nat) (minor patch : Option Nat) : Option VRanges :=
  match minor, patch with
  | none, none => some (rangesGreaterEq (major + 1) (some 0) (some 0))
  | none, some _ => none
  | some minor, none => some (rangesGreaterEq major (some (minor + 1)) (some 0))
  | some minor, some patch =>
    some (VRanges.strictlyHigherThan (Version.new major minor patch))

/-- `ranges_less_eq` in `pubgrub.rs`. -/
def rangesLessEq (major : Nat) (minor patch : Option Nat) : Option VRanges :=
  match minor, patch with
  | none, none => some (rangesLess (major + 1) (some 0) (some 0))
  | none, some _ => none
  | some minor, none => some (rangesLess major (some (minor + 1)) (some 0))
  | some minor, some patch => some (VRanges.lowerThan (Version.new major minor patch))

/-- `ranges_tilde` in `pubgrub.rs`. -/
def rangesTilde (major : Nat) (minor patch : Option Nat) : Option VRanges :=
  match minor, patch with
  | none, none => rangesExact major none none
  | none, some _ => none
  | some minor, none => rangesExact major (some minor) none
  | some minor, some patch =>
    some ((rangesGreaterEq major (some minor) (some patch)).intersection
      (rangesLess major (some (minor + 1)) (some 0)))

/-- `ranges_caret` in `pubgrub.rs`; `none` models the `unreachable!` arm. -/
def rangesCaret (major : Nat) (minor patch : Option Nat) : Option VRanges :=
  match minor, patch with
  | some minor, some patch =>
    if 0 < major then
      some ((rangesGreaterEq major (some minor) (some patch)).intersection
        (rangesLess (major + 1) (some 0) (some 0)))
    else if 0 < minor then
      some ((rangesGreaterEq 0 (some minor) (some patch)).intersection
        (rangesLess 0 (some (minor + 1)) (some 0)))
    else rangesExact 0 (some 0) (some patch)
  | some minor, none =>
    if 0 < major || 0 < minor then rangesCaret major (some minor) (some 0)
    else rangesExact 0 (some 0) none
  | none, none => rangesExact major none none
  | none, some _ => none
termination_by match patch with | none => 1 | some _ => 0

/-- `ranges_wildcard` in `pubgrub.rs`. -/
def rangesWildcard (major : Nat) (minor : Option Nat) : Option VRanges :=
  match minor with
  | some minor => rangesExact major (some minor) none
  | none => rangesExact major none none

/-- A comparator operator (`semver::Op`, all eight variants). -/
inductive Op
| exact
| greater
| greaterEq
| less
| lessEq
| tilde
| caret
| wildcard
deriving DecidableEq, Repr

/-- A semver comparator (`semver::Comparator`). -/
structure Comparator where
  op : Op
  major : Nat
  minor : Option Nat
  patch : Option Nat
  pre : List PreId
deriving DecidableEq, Repr

/-- The per-comparator dispatch of `ranges_for` in `pubgrub.rs`. -/
def rangesForCmp (c : Comparator) : Option VRanges :=
  match c.op with
  | .exact => rangesExact c.major c.minor c.patch
  | .greater => rangesGreater c.major c.minor c.patch
  | .greaterEq => some (rangesGreaterEq c.major c.minor c.patch)
  | .less => some (rangesLess c.major c.minor c.patch)
  | .lessEq => rangesLessEq c.major c.minor c.patch
  | .tilde => rangesTilde c.major c.minor c.patch
  | .caret => rangesCaret c.major c.minor c.patch
  | .wildcard => rangesWildcard c.major c.minor

/-- The accumulator loop of `ranges_for`. -/
def rangesForAux (acc : VRanges) : List Comparator → Option VRanges
  | [] => some acc
  | c :: rest =>
    match rangesForCmp c with
    | none => none
    | some r => rangesForAux (acc.intersection r) rest

/-- `ranges_for` in `pubgrub.rs`: starting from the full range, intersect
the range of every comparator; `none` models a panic. -/
def rangesFor (req : List Comparator) : Option VRanges :=
  rangesForAux VRanges.full req

/-- `matches_exact` in the `semver` crate. -/
def matchesExact (cmp : Comparator) (v : Version) : Bool :=
  (v.major == cmp.major)
    && (match cmp.minor with | none => true | some m => v.minor == m)
    && (match cmp.patch with | none => true | some p => v.patch == p)
    && (v.pre == cmp.pre)

/-- `matches_greater` in the `semver` crate. -/
def matchesGreater (cmp : Comparator) (v : Version) : Bool :=
  if v.major != cmp.major then decide (cmp.major < v.major)
  else
    match cmp.minor with
    | none => false
    | some minor =>
      if v.minor != minor then decide (minor < v.minor)
      else
        match cmp.patch with
        | none => false
        | some patch =>
          if v.patch != patch then decide (patch < v.patch)
          else preCompare v.pre cmp.pre == .gt

/-- `matches_less` in the `semver` crate. -/
def matchesLess (cmp : Comparator) (v : Version) : Bool :=
  if v.major != cmp.major then decide (v.major < cmp.major)
  else
    match cmp.minor with
    | none => false
    | some minor =>
      if v.minor != minor then decide (v.minor < minor)
      else
        match cmp.patch with
        | none => false
        | some patch =>
          if v.patch != patch then decide (v.patch < patch)
          else preCompare v.pre cmp.pre == .lt

/-- `matches_tilde` in the `semver` crate. -/
def matchesTilde (cmp : Comparator) (v : Version) : Bool :=
  if v.major != cmp.major then false
  else
    match cmp.minor with
    | none => preCompare v.pre cmp.pre != .lt
    | some minor =>
      if v.minor != minor then false
      else
        match cmp.patch with
        | none => preCompare v.pre cmp.pre != .lt
        | some patch =>
          if v.patch != patch then decide (patch < v.patch)
          else preCompare v.pre cmp.pre != .lt

/-- `matches_caret` in the `semver` crate. -/
def matchesCaret (cmp : Comparator) (v : Version) : Bool :=
  if v.major != cmp.major then false
  else
    match cmp.minor with
    | none => true
    | some minor =>
      match cmp.patch with
      | none =>
        if 0 < cmp.major then decide (minor ≤ v.minor) else v.minor == minor
      | some patch =>
        if 0 < cmp.major then
          (if v.minor != minor then decide (minor < v.minor)
           else if v.patch != patch then decide (patch < v.patch)
           else preCompare v.pre cmp.pre != .lt)
        else if 0 < minor then
          (if v.minor != minor then false
           else if v.patch != patch then decide (patch < v.patch)
           else preCompare v.pre cmp.pre != .lt)
        else
          (if v.minor != minor || v.patch != patch then false
           else preCompare v.pre cmp.pre != .lt)

/-- `matches_impl` in the `semver` crate. -/
def matchesImpl (cmp : Comparator) (v : Version) : Bool :=
  match cmp.op with
  | .exact => matchesExact cmp v
  | .wildcard => matchesExact cmp v
  | .greater => matchesGreater cmp v
  | .greaterEq => matchesExact cmp v || matchesGreater cmp v
  | .less => matchesLess cmp v
  | .lessEq => matchesExact cmp v || matchesLess cmp v
  | .tilde => matchesTilde cmp v
  | .caret => matchesCaret cmp v

/-- `pre_is_compatible` in the `semver` crate. -/
def preIsCompatible (cmp : Comparator) (v : Version) : Bool :=
  (cmp.major == v.major)
    && (cmp.minor == some v.minor)
    && (cmp.patch == some v.patch)
    && !cmp.pre.isEmpty

/-- `matches_req` in the `semver` crate (`VersionReq::matches`): every
comparator must match, and a pre-release version additionally needs some
comparator with the same triple and a pre-release tag. -/
def matchesReq (req : List Comparator) (v : Version) : Bool :=
  req.all (fun c => matchesImpl c v)
    && (v.pre.isEmpty || req.any (fun c => preIsCompatible c v))

/-- A package identifier (`Id` in `id.rs`), wrapping its string. -/
structure Id where
  str : String
deriving DecidableEq, Repr

/-- Is `c` an ASCII lowercase letter (`char::is_ascii_lowercase`)? -/
def isAsciiLower (c : Char) : Bool := 'a' ≤ c && c ≤ 'z'

/-- Is `c` an ASCII digit (`char::is_ascii_digit`)? -/
def isAsciiDigit (c : Char) : Bool := '0' ≤ c && c ≤ '9'

/-- The validity predicate enforced by `FromStr for Id` in `id.rs`:
non-empty, starts with a lowercase letter, and every further character is a
lowercase letter, digit, hyphen or underscore. -/
def validId (s : String) : Bool :=
  match s.toList with
  | [] => false
  | first :: rest =>
    isAsciiLower first
      && rest.all (fun c => isAsciiLower c || isAsciiDigit c || c == '-' || c == '_')

/-- Embedding of `impl Display for Id` in `id.rs`.  The body is
`write!(f, "{self}")`, which invokes this same `Display` implementation on
`self` again: each step consumes one stack frame and emits nothing.  The
fuel parameter models the call stack; running out models the stack
overflow. -/
def idFmt (fuel : Nat) (id : Id) : Option String :=
  match fuel with
  | 0 => none
  | n + 1 => idFmt n id

/-- Outcome of Rust code that may `panic!`. -/
inductive Panics (α : Type)
| panicked (msg : String)
| returns (a : α)
deriving DecidableEq, Repr

/-- `ResolveError` in the `glue` module of `registry.rs`. -/
structure ResolveError where
  msg : String
deriving DecidableEq, Repr

/-- `RegistryDependencyProvider::choose_version` in `registry.rs`: the body
is `todo!()`, which panics unconditionally on every input. -/
def chooseVersion (package : Id) (range : VRanges) :
    Panics (Except ResolveError (Option Version)) :=
  .panicked "not yet implemented"

/-- A library artifact from the upstream manifest
(`mc_launchermeta::version::library::Artifact`, the consumed fields). -/
structure LibArtifact where
  path : String
  sha1 : String
  size : Nat
  url : String
deriving DecidableEq, Repr

/-- A download descriptor (`mc_launchermeta::version::Download`). -/
structure Download where
  sha1 : String
  size : Nat
  url : String
deriving DecidableEq, Repr

/-- `mc_launchermeta::version::rule::OsName`. -/
inductive OsName
| windows
| osx
| linux
deriving DecidableEq, Repr

/-- `mc_launchermeta::version::rule::OsArch`: only `x86` is modelled, as in
the consumed crate version. -/
inductive OsArch
| x86
deriving DecidableEq, Repr

/-- `mc_launchermeta::version::rule::Os`. -/
structure OsRule where
  name : Option OsName
  arch : Option OsArch
  version : Option String
deriving DecidableEq, Repr

/-- `mc_launchermeta::version::rule::RuleAction`. -/
inductive RuleAction
| allow
| disallow
deriving DecidableEq, Repr

/-- A library rule; only emptiness of `features` is ever consulted, so the
feature map is modelled by its key list. -/
structure Rule where
  action : RuleAction
  os : Option OsRule
  features : List String
deriving DecidableEq, Repr

/-- The `downloads` field of a library: optional primary artifact and
optional classifier map (a `HashMap`, modelled as an association list in
iteration order). -/
structure LibDownloads where
  artifact : Option LibArtifact
  classifiers : Option (List (String × LibArtifact))
deriving DecidableEq, Repr

/-- A library entry of the upstream version descriptor. -/
structure Library where
  downloads : Option LibDownloads
  rules : Option (List Rule)
deriving DecidableEq, Repr

/-- `check_os` in `mc.rs`, with the ambient `std::env::consts::{OS, ARCH}`
passed explicitly; `none` models the `todo!` panic on a present
`os.version`. -/
def checkOs (os arch : String) (r : OsRule) : Option Bool :=
  match r.version with
  | some _ => none
  | none =>
    let nameOk :=
      match r.name with
      | none => true
      | some .windows => os == "windows"
      | some .osx => os == "macos"
      | some .linux => os == "linux"
    let archOk :=
      match r.arch with
      | none => true
      | some .x86 => arch == "x86" || arch == "x86_64"
    some (nameOk && archOk)

/-- `check_class` in `mc.rs`; `none` models the `todo!` panic on an unknown
classifier. -/
def checkClass (os : String) (cls : String) : Option Bool :=
  if cls == "natives-linux" then some (os == "linux")
  else if cls == "natives-windows" then some (os == "windows")
  else if cls == "natives-macos" then some (os == "macos")
  else none

/-- One rule of the filter in `filter_lib`: an `Allow` rule applies when its
qualifiers hold, a `Disallow` rule applies when they do not; `none` models
the `todo!` panic on rules with features. -/
def ruleApplies (os arch : String) (r : Rule) : Option Bool :=
  if !r.features.isEmpty then none
  else
    let osOk :=
      match r.os with
      | none => some true
      | some o => checkOs os arch o
    match osOk with
    | none => none
    | some ok =>
      match r.action with
      | .allow => some ok
      | .disallow => some (!ok)

/-- `iter().all(...)` over a library's rules, with the short-circuit of the
Rust iterator (a false result stops before later panicking rules). -/
def rulesAll (os arch : String) : List Rule → Option Bool
  | [] => some true
  | r :: rest =>
    match ruleApplies os arch r with
    | none => none
    | some false => some false
    | some true => rulesAll os arch rest

/-- The rule-filter stage of `filter_lib`: a library with no rule list is
kept; otherwise it is kept iff all rules apply. -/
def filterLibKept (os arch : String) : List Library → Option (List Library)
  | [] => some []
  | l :: rest =>
    match (match l.rules with | none => some true | some rs => rulesAll os arch rs) with
    | none => none
    | some keep =>
      match filterLibKept os arch rest with
      | none => none
      | some tail => some (if keep then l :: tail else tail)

/-- The classifier stage of `filter_lib`: keep the classifier artifacts
whose tag matches the host OS; `none` models the `todo!` panic on an
unknown classifier. -/
def classifierArts (os : String) : List (String × LibArtifact) → Option (List LibArtifact)
  | [] => some []
  | (cls, art) :: rest =>
    match checkClass os cls with
    | none => none
    | some true => (classifierArts os rest).map (art :: ·)
    | some false => classifierArts os rest

/-- The `flat_map` stage of `filter_lib`: matching classifier artifacts
chained with the primary artifact. -/
def libArts (os : String) (d : LibDownloads) : Option (List LibArtifact) :=
  match classifierArts os (d.classifiers.getD []) with
  | none => none
  | some cls => some (cls ++ d.artifact.toList)

/-- `filter_map(downloads)` followed by the `flat_map` stage, over all kept
libraries. -/
def flattenArts (os : String) : List Library → Option (List LibArtifact)
  | [] => some []
  | l :: rest =>
    match l.downloads with
    | none => flattenArts os rest
    | some d =>
      match libArts os d with
      | none => none
      | some arts => (flattenArts os rest).map (arts ++ ·)

/-- Insert into an association list, overwriting an existing key in place
(`HashMap::insert` observable behaviour). -/
def assocInsert {α β : Type} [DecidableEq α] (m : List (α × β)) (k : α) (v : β) :
    List (α × β) :=
  match m with
  | [] => [(k, v)]
  | (k2, v2) :: rest => if k2 = k then (k, v) :: rest else (k2, v2) :: assocInsert rest k v

/-- Lookup in an association list. -/
def assocLookup {α β : Type} [DecidableEq α] (m : List (α × β)) (k : α) : Option β :=
  match m with
  | [] => none
  | (k2, v2) :: rest => if k2 = k then some v2 else assocLookup rest k

/-- `collect::<HashMap<_, _>>()` over an iterator of pairs: insert each pair
in order, later pairs overwriting earlier ones with the same key. -/
def collectMapAux {α β : Type} [DecidableEq α] (acc : List (α × β)) :
    List (α × β) → List (α × β)
  | [] => acc
  | (k, v) :: rest => collectMapAux (assocInsert acc k v) rest

/-- `filter_lib` in `vanilla.rs`: rule filtering, classifier selection, then
collection into a `HashMap<String, Download>` keyed by the artifact `path`;
`none` models any `todo!` panic in the pipeline. -/
def filterLib (os arch : String) (lib : List Library) :
    Option (List (String × Download)) :=
  match filterLibKept os arch lib with
  | none => none
  | some kept =>
    match flattenArts os kept with
    | none => none
    | some arts =>
      some (collectMapAux [] (arts.map fun a => (a.path, ⟨a.sha1, a.size, a.url⟩)))

/-- The file map of an install (`FileMap` in `pack.rs`, a
`HashMap<PathBuf, Artifact>` modelled as an association list with unique
keys in iteration order). -/
abbrev FileMap := List (Path × Artifact)

/-- Things installed to the game instance by a package (`Install` in
`pack.rs`). -/
structure Install where
  java_lib : List Artifact
  java_main_class : Option String
  native : FileMap
  java_flag : List String
  mc_jar : Option Artifact
  mc_flag : List String
  mc_asset_index : Option Artifact
  mc_mod : List Artifact
deriving DecidableEq, Repr

/-- `Install::default()`: all fields empty. -/
def Install.empty : Install := ⟨[], none, [], [], none, [], none, []⟩

/-- `HashMap::extend` over the native file map: every right-hand entry is
inserted, overwriting an existing key. -/
def extendFileMap (a b : FileMap) : FileMap :=
  collectMapAux a b

/-- `Install::merge` in `pack.rs` (one step of the `Extend` impl): list
fields concatenate, option fields keep the left value when present, and the
native map is extended by the right-hand map. -/
def Install.merge (a b : Install) : Install :=
  { java_lib := a.java_lib ++ b.java_lib
    java_main_class := a.java_main_class.or b.java_main_class
    native := extendFileMap a.native b.native
    java_flag := a.java_flag ++ b.java_flag
    mc_jar := a.mc_jar.or b.mc_jar
    mc_flag := a.mc_flag ++ b.mc_flag
    mc_asset_index := a.mc_asset_index.or b.mc_asset_index
    mc_mod := a.mc_mod ++ b.mc_mod }

/-- A game instance configuration (`Inst` in `inst.rs`).  `LockBuilder`
passes it through unchanged, so only its name is modelled. -/
structure Inst where
  name : String
deriving DecidableEq, Repr

/-- One deployment entry (`Deployment` in `lock.rs`). -/
structure Deployment where
  path : Path
  artifact : Artifact
deriving DecidableEq, Repr

/-- The finalized launch plan (`Lock` in `lock.rs`). -/
structure Lock where
  cfg : Inst
  java_main_class : String
  java_flag : List String
  mc_flag : List String
  deploy : List Deployment
deriving DecidableEq, Repr

/-- `LockBuilder` in `lock.rs`. -/
structure LockBuilder where
  cfg : Inst
  install : Install
deriving DecidableEq, Repr

/-- The asset-index deployment path built in `LockBuilder::build`:
`creeper_minecraft()/assets/indexes/<blake3>`, with no extension
appended. -/
def assetIndexPath (blake3 : String) : Path :=
  creeperMinecraft ++ "/assets/indexes/" ++ blake3

/-- `LockBuilder::build` in `lock.rs`, with error sites in source order:
libraries and natives are deployed, then the client jar (required), the
mods, the asset index (required, which also appends the `--assetIndex`
flags), and finally the main class (required). -/
def LockBuilder.build (b : LockBuilder) : Except Err Lock :=
  let i := b.install
  let deploy1 := i.java_lib.enum.map fun p => Deployment.mk ("libraries/" ++ toString p.1) p.2
  let deploy2 := deploy1 ++ i.native.map fun p => Deployment.mk p.1 p.2
  match i.mc_jar with
  | none => .error .mcJarUnspecified
  | some jar =>
    let deploy3 := deploy2 ++ [⟨"minecraft.jar", jar⟩]
    let deploy4 := deploy3 ++ i.mc_mod.enum.map fun p => Deployment.mk ("mods/" ++ toString p.1) p.2
    match i.mc_asset_index with
    | none => .error .assetIndexUnspecified
    | some asset =>
      let mcFlag := i.mc_flag ++ ["--assetIndex", asset.blake3]
      let deploy5 := deploy4 ++ [⟨assetIndexPath asset.blake3, asset⟩]
      match i.java_main_class with
      | none => .error .mainClassUnspecified
      | some mainClass => .ok ⟨b.cfg, mainClass, i.java_flag, mcFlag, deploy5⟩

/-- Uniqueness of the primary key: no two index rows share a `blake3`
digest (the `PRIMARY KEY` constraint of the artifact table). -/
def uniqueIndex (rows : List Artifact) : Prop :=
  rows.Pairwise (fun x y => x.blake3 ≠ y.blake3)

/-- Specification of one secondary-checksum column after affixing a
checksum list onto a row: an already present column is kept, and an empty
column is filled by the first supplied digest of that algorithm, if any.
Used to state what `affix_checksum` leaves in the `sha1`/`sha256`
columns. -/
def affixedColumn (checksum : List Checksum) (f : HashFunc) (col : Option String) :
    Option String :=
  match checksum.find? (fun c => c.function == f) with
  | some c => if col.isSome then col else some c.hex_hash
  | none => col

/-- A well-formed comparator, as produced by the `semver` parser: a patch
component requires a minor component, and a wildcard comparator carries no
patch component. -/
def wfCmp (c : Comparator) : Prop :=
  (c.minor = none → c.patch = none) ∧ (c.op = Op.wildcard → c.patch = none)

/-- A release version: no pre-release identifiers and no build metadata. -/
def relV (v : Version) : Prop := v.pre = [] ∧ v.build = []

/-- A bound whose endpoint, if any, is a release version. -/
def relB : VBound → Prop
  | .unbounded => True
  | .included v => relV v
  | .excluded v => relV v

/-- A range whose endpoints are release versions. -/
def relR (r : VRanges) : Prop := relB r.lo ∧ relB r.hi

/-- A concrete hash oracle for evaluating the model on closed inputs:
digests are the algorithm tag joined with the decimal bytes. -/
def toyHash : Hasher := fun f b =>
  (match f with
   | HashFunc.blake3 => "b3-"
   | HashFunc.sha1 => "s1-"
   | HashFunc.sha256 => "s2-") ++ String.intercalate "." (b.map toString)

/-- A concrete HTTP oracle: every URL serves the body `[7]`. -/
def toyHttp : String → Blob := fun _ => [7]

/-- Concrete artifact fixture. -/
def artA : Artifact := ⟨"ha", "a", "ua", 1, none, none, none⟩

/-- Concrete artifact fixture. -/
def artB : Artifact := ⟨"hb", "b", "ub", 2, none, none, none⟩

/-- Fixture: an index row whose `blake3` is `B` while the stored blob
hashes to something else. -/
def c1Row : Artifact := ⟨"B", "n", "u", 1, none, none, none⟩

/-- Fixture: a CAS state with the row `c1Row` and a corrupt blob at its
storage path (`toyHash` gives `[9]` the BLAKE3 digest `b3-9`, not `B`). -/
def c1State : StorageState := ⟨[c1Row], [(storagePath "B", [9])]⟩

/-- Fixture: an index row with a SHA-1 column. -/
def c7Row : Artifact := ⟨"B7", "n7", "u7", 1, some "S7", none, none⟩

/-- Fixture: a CAS state holding `c7Row` and its blob `[3]`. -/
def c7State : StorageState := ⟨[c7Row], [(storagePath "B7", [3])]⟩

/-- Fixture: an empty index with one staged file. -/
def c8State : StorageState := ⟨[], [("staged", [1])]⟩

/-- Fixture: two libraries without rules whose artifacts share the SHA-1
`SS` but live at distinct paths. -/
def c4Lib1 : Library := ⟨some ⟨some ⟨"p1", "SS", 1, "u1"⟩, none⟩, none⟩

/-- Fixture: second library for the SHA-1 collision. -/
def c4Lib2 : Library := ⟨some ⟨some ⟨"p2", "SS", 2, "u2"⟩, none⟩, none⟩

/-- Fixture: a client jar artifact. -/
def c6Jar : Artifact := ⟨"hJ", "minecraft.jar", "uJ", 3, none, none, none⟩

/-- Fixture: an asset index artifact with digest `hA`. -/
def c6Asset : Artifact := ⟨"hA", "asset", "uA", 1, none, none, none⟩

/-- Fixture: an install carrying a jar, an asset index and a main class. -/
def c6Install : Install :=
  { Install.empty with
      mc_jar := some c6Jar
      mc_asset_index := some c6Asset
      java_main_class := some "Main"
      mc_flag := ["x"] }

/-- Fixture: left-hand install whose native map binds `p` to `artA`. -/
def mergeL : Install := { Install.empty with native := [("p", artA)] }

/-- Fixture: right-hand install whose native map binds `p` to `artB`. -/
def mergeR : Install := { Install.empty with native := [("p", artB)] }

/-! Helper lemmas about association lists. -/

lemma assocLookup_insert_self {α β : Type} [DecidableEq α] (m : List (α × β)) (k : α) (v : β) :
    assocLookup (assocInsert m k v) k = some v := by
  induction m with
  | nil => simp [assocInsert, assocLookup]
  | cons p rest ih =>
    obtain ⟨k2, v2⟩ := p
    by_cases h : k2 = k
    · subst h; simp [assocInsert, assocLookup]
    · simp [assocInsert, assocLookup, h, ih]

lemma assocLookup_insert_other {α β : Type} [DecidableEq α] (m : List (α × β)) (k k2 : α)
    (v : β) (h : ¬ k2 = k) :
    assocLookup (assocInsert m k v) k2 = assocLookup m k2 := by
  have hkk2 : ¬ k = k2 := fun hh => h hh.symm
  induction m with
  | nil => simp [assocInsert, assocLookup, hkk2]
  | cons p rest ih =>
    obtain ⟨k3, v3⟩ := p
    by_cases h3 : k3 = k
    · subst h3
      simp [assocInsert, assocLookup, hkk2]
    · by_cases h32 : k3 = k2
      · subst h32
        simp [assocInsert, assocLookup, h3]
      · simp [assocInsert, assocLookup, h3, h32, ih]

lemma assocLookup_eq_none {α β : Type} [DecidableEq α] (m : List (α × β)) (k : α)
    (h : k ∉ m.map Prod.fst) :
    assocLookup m k = none := by
  induction m with
  | nil => rfl
  | cons p rest ih =>
    obtain ⟨k2, v2⟩ := p
    simp only [List.map_cons, List.mem_cons, not_or] at h
    have : ¬ k2 = k := fun hh => h.1 hh.symm
    simp [assocLookup, this, ih h.2]

lemma collectMapAux_lookup {α β : Type} [DecidableEq α] (l : List (α × β))
    (hl : (l.map Prod.fst).Nodup) (acc : List (α × β)) (k : α) :
    assocLookup (collectMapAux acc l) k = (assocLookup l k).or (assocLookup acc k) := by
  induction l generalizing acc with
  | nil => simp [collectMapAux, assocLookup]
  | cons p rest ih =>
    obtain ⟨k1, v1⟩ := p
    simp only [List.map_cons, List.nodup_cons] at hl
    rw [show collectMapAux acc ((k1, v1) :: rest) = collectMapAux (assocInsert acc k1 v1) rest from rfl]
    rw [ih hl.2]
    by_cases hk : k = k1
    · subst hk
      rw [assocLookup_eq_none rest k hl.1, assocLookup_insert_self]
      simp [assocLookup]
    · have hk1 : ¬ k1 = k := fun hh => hk hh.symm
      rw [assocLookup_insert_other acc k1 k v1 hk]
      simp [assocLookup, hk1]

lemma mem_keys_assocInsert {α β : Type} [DecidableEq α] (m : List (α × β)) (k : α) (v : β)
    (x : α) (h : x ∈ (assocInsert m k v).map Prod.fst) :
    x ∈ m.map Prod.fst ∨ x = k := by
  induction m with
  | nil => simpa [assocInsert] using h
  | cons p rest ih =>
    obtain ⟨k2, v2⟩ := p
    simp only [assocInsert] at h
    by_cases h2 : k2 = k
    · rw [if_pos h2] at h
      simp only [List.map_cons, List.mem_cons] at h ⊢
      rcases h with h | h
      · exact Or.inr h
      · exact Or.inl (Or.inr h)
    · rw [if_neg h2] at h
      simp only [List.map_cons, List.mem_cons] at h ⊢
      rcases h with h | h
      · exact Or.inl (Or.inl h)
      · rcases ih h with h | h
        · exact Or.inl (Or.inr h)
        · exact Or.inr h

lemma assocInsert_keys_nodup {α β : Type} [DecidableEq α] (m : List (α × β)) (k : α) (v : β)
    (h : (m.map Prod.fst).Nodup) :
    ((assocInsert m k v).map Prod.fst).Nodup := by
  induction m with
  | nil => simp [assocInsert]
  | cons p rest ih =>
    obtain ⟨k2, v2⟩ := p
    simp only [List.map_cons, List.nodup_cons] at h
    by_cases h2 : k2 = k
    · subst h2
      rw [show assocInsert ((k2, v2) :: rest) k2 v = (k2, v) :: rest from by simp [assocInsert]]
      simp only [List.map_cons, List.nodup_cons]
      exact ⟨h.1, h.2⟩
    · simp only [assocInsert, if_neg h2, List.map_cons, List.nodup_cons]
      refine ⟨?_, ih h.2⟩
      intro hmem
      rcases mem_keys_assocInsert rest k v k2 hmem with hh | hh
      · exact h.1 hh
      · exact h2 hh

lemma collectMapAux_keys_nodup {α β : Type} [DecidableEq α] (l : List (α × β))
    (acc : List (α × β)) (h : (acc.map Prod.fst).Nodup) :
    ((collectMapAux acc l).map Prod.fst).Nodup := by
  induction l generalizing acc with
  | nil => simpa [collectMapAux] using h
  | cons p rest ih =>
    obtain ⟨k1, v1⟩ := p
    exact ih (assocInsert acc k1 v1) (assocInsert_keys_nodup acc k1 v1 h)

/-! Claim theorems. -/

/-- C3: `RegistryDependencyProvider::choose_version` is a `todo!()` stub:
on every package and range it panics instead of enumerating the registry
versions and returning the highest one lying in the range. -/
theorem chooseVersion_always_panics (p : Id) (r : VRanges) :
    chooseVersion p r = Panics.panicked "not yet implemented" := rfl

/-- C10: the `Display` implementation of `Id` formats `self` with itself,
so under every stack budget it diverges and never yields the underlying
identifier string; parse-then-display is not the identity. -/
theorem idFmt_diverges (fuel : Nat) (id : Id) : idFmt fuel id = none := by
  induction fuel with
  | zero => rfl
  | succ n ih => exact ih

/-- C5 counterexample: merging two installs whose native maps both bind the
path `p` keeps the right-hand artifact, not the left-hand one. -/
theorem merge_native_cex :
    assocLookup (Install.merge mergeL mergeR).native "p" = some artB ∧ artB ≠ artA := by
  constructor
  · rfl
  · decide

/-- C5 amended: `Install::merge` concatenates every list field in argument
order, keeps the first present option field (the left one when both are
present), and extends the native map so that the right-hand entry wins on a
key collision. -/
theorem merge_fields (a b : Install) (hb : (b.native.map Prod.fst).Nodup) :
    (a.merge b).java_lib = a.java_lib ++ b.java_lib
    ∧ (a.merge b).java_flag = a.java_flag ++ b.java_flag
    ∧ (a.merge b).mc_flag = a.mc_flag ++ b.mc_flag
    ∧ (a.merge b).mc_mod = a.mc_mod ++ b.mc_mod
    ∧ (a.merge b).java_main_class = a.java_main_class.or b.java_main_class
    ∧ (a.merge b).mc_jar = a.mc_jar.or b.mc_jar
    ∧ (a.merge b).mc_asset_index = a.mc_asset_index.or b.mc_asset_index
    ∧ ∀ k, assocLookup (a.merge b).native k
        = (assocLookup b.native k).or (assocLookup a.native k) := by
  refine ⟨rfl, rfl, rfl, rfl, rfl, rfl, rfl, ?_⟩
  intro k
  exact collectMapAux_lookup b.native hb a.native k

/-- C5 witness: the amended merge theorem applied to the concrete installs
`mergeL` and `mergeR`. -/
theorem merge_fields_witness :
    (Install.merge mergeL mergeR).mc_flag = mergeL.mc_flag ++ mergeR.mc_flag :=
  (merge_fields mergeL mergeR (by decide)).2.2.1

/-- C4 counterexample: two rule-free libraries whose artifacts share the
SHA-1 `SS` at distinct paths both survive `filter_lib`: the final set keeps
two entries with that SHA-1, so it is not keyed by SHA-1. -/
theorem filterLib_sha1_cex :
    filterLib "linux" "x86_64" [c4Lib1, c4Lib2]
      = some [("p1", ⟨"SS", 1, "u1"⟩), ("p2", ⟨"SS", 2, "u2"⟩)]
    ∧ ([("p1", (⟨"SS", 1, "u1"⟩ : Download)), ("p2", ⟨"SS", 2, "u2"⟩)].filter
        (fun p => p.2.sha1 == "SS")).length = 2 := by
  constructor
  · rfl
  · rfl

/-- C4 amended: the artifact set produced by `filter_lib` is keyed by the
artifact path: its keys are pairwise distinct, so entries sharing a path
collapse into one while entries with equal SHA-1 but distinct paths both
remain. -/
theorem filterLib_keys_nodup (os arch : String) (lib : List Library)
    (res : List (String × Download)) (h : filterLib os arch lib = some res) :
    (res.map Prod.fst).Nodup := by
  unfold filterLib at h
  split at h
  · exact absurd h (by simp)
  · split at h
    · exact absurd h (by simp)
    · obtain rfl : res = _ := (Option.some.inj h).symm
      exact collectMapAux_keys_nodup _ [] (by simp)

/-- C4 witness: the amended theorem applied to the concrete library list of
the counterexample. -/
theorem filterLib_keys_nodup_witness :
    (([("p1", (⟨"SS", 1, "u1"⟩ : Download)), ("p2", ⟨"SS", 2, "u2"⟩)]
      : List (String × Download)).map Prod.fst).Nodup :=
  filterLib_keys_nodup "linux" "x86_64" [c4Lib1, c4Lib2] _ rfl

/-- C6 counterexample: on a complete install the asset index deploys to
`minecraft/assets/indexes/hA`, and that path carries no `.json`
extension. -/
theorem lock_asset_path_cex :
    LockBuilder.build ⟨⟨"i"⟩, c6Install⟩
      = .ok ⟨⟨"i"⟩, "Main", [], ["x", "--assetIndex", "hA"],
          [⟨"minecraft.jar", c6Jar⟩, ⟨"minecraft/assets/indexes/hA", c6Asset⟩]⟩
    ∧ assetIndexPath "hA" ≠ "minecraft/assets/indexes/hA.json" := by
  constructor
  · rfl
  · decide

/-- C6 amended: when the install also carries a client jar and a main class,
the built lock deploys the asset index to
`<instance minecraft>/assets/indexes/<blake3>` (no `.json` extension) and
appends `--assetIndex <blake3>` to `mc_flag`; an install without an asset
index always fails to build. -/
theorem lock_asset_index (cfg : Inst) (i : Install) (asset jar : Artifact) (mainC : String)
    (hasset : i.mc_asset_index = some asset) (hjar : i.mc_jar = some jar)
    (hmain : i.java_main_class = some mainC) :
    (∃ l, LockBuilder.build ⟨cfg, i⟩ = .ok l
      ∧ Deployment.mk (assetIndexPath asset.blake3) asset ∈ l.deploy
      ∧ l.mc_flag = i.mc_flag ++ ["--assetIndex", asset.blake3])
    ∧ ∀ cfg2 i2, i2.mc_asset_index = none →
        ∃ e, LockBuilder.build ⟨cfg2, i2⟩ = .error e := by
  constructor
  · simp only [LockBuilder.build, hjar, hasset, hmain]
    exact ⟨_, rfl, by simp, rfl⟩
  · intro cfg2 i2 h0
    rcases hj : i2.mc_jar with _ | j
    · exact ⟨.mcJarUnspecified, by simp [LockBuilder.build, hj]⟩
    · exact ⟨.assetIndexUnspecified, by simp [LockBuilder.build, hj, h0]⟩

/-- C6 witness: the amended lock theorem applied to the concrete complete
install `c6Install`. -/
theorem lock_asset_index_witness :
    ∃ l, LockBuilder.build ⟨⟨"i"⟩, c6Install⟩ = .ok l
      ∧ Deployment.mk (assetIndexPath c6Asset.blake3) c6Asset ∈ l.deploy
      ∧ l.mc_flag = c6Install.mc_flag ++ ["--assetIndex", c6Asset.blake3] :=
  (lock_asset_index ⟨"i"⟩ c6Install c6Asset c6Jar "Main" rfl rfl rfl).1

/-! Helper lemmas about the filesystem model and the CAS operations. -/

lemma lookupFS_insert_self (fs : FS) (p : Path) (b : Blob) :
    lookupFS (insertFS fs p b) p = some b := by
  induction fs with
  | nil => simp [insertFS, lookupFS]
  | cons q rest ih =>
    obtain ⟨q1, b1⟩ := q
    by_cases h : q1 = p
    · subst h; simp [insertFS, lookupFS]
    · simp [insertFS, lookupFS, h, ih]

lemma lookupFS_insert_other (fs : FS) (p p2 : Path) (b : Blob) (h : ¬ p2 = p) :
    lookupFS (insertFS fs p b) p2 = lookupFS fs p2 := by
  have hpp2 : ¬ p = p2 := fun hh => h hh.symm
  induction fs with
  | nil => simp [insertFS, lookupFS, hpp2]
  | cons q rest ih =>
    obtain ⟨q1, b1⟩ := q
    by_cases h1 : q1 = p
    · subst h1
      simp [insertFS, lookupFS, hpp2]
    · by_cases h12 : q1 = p2
      · subst h12
        simp [insertFS, lookupFS, h1]
      · simp [insertFS, lookupFS, h1, h12, ih]

lemma affix_checksum_fields (a : Artifact) (c : Checksum) :
    (a.affix_checksum c).blake3 = a.blake3 ∧ (a.affix_checksum c).name = a.name
    ∧ (a.affix_checksum c).src = a.src ∧ (a.affix_checksum c).len = a.len := by
  obtain ⟨f, hx⟩ := c
  cases f <;> simp [Artifact.affix_checksum]

lemma affix_has_mono (a : Artifact) (c : Checksum) (f : HashFunc)
    (h : (a.affix_checksum c).has_checksum f = false) : a.has_checksum f = false := by
  obtain ⟨cf, hx⟩ := c
  cases cf <;> cases f <;> simp_all [Artifact.affix_checksum, Artifact.has_checksum]

lemma affixLoop_fields (H : Hasher) (fs : FS) (file : Path) :
    ∀ (cs : List Checksum) (art : Artifact) (added : Bool) (a2 : Artifact) (d : Bool),
    affixLoop H fs file art added cs = .ok (a2, d) →
    a2.blake3 = art.blake3 ∧ a2.name = art.name ∧ a2.src = art.src ∧ a2.len = art.len := by
  intro cs
  induction cs with
  | nil =>
    intro art added a2 d h
    simp only [affixLoop] at h
    obtain ⟨h1, _⟩ := Prod.mk.injEq .. ▸ (Except.ok.inj h)
    rw [← h1]
    exact ⟨rfl, rfl, rfl, rfl⟩
  | cons c rest ih =>
    intro art added a2 d h
    simp only [affixLoop] at h
    by_cases hhc : art.has_checksum c.function
    · rw [if_pos hhc] at h
      exact ih art added a2 d h
    · rw [if_neg hhc] at h
      rcases hck : c.check H fs file with e | bl <;> rw [hck] at h
      · exact absurd h (by simp)
      · cases bl
        · exact absurd h (by simp)
        · have h2 := ih (art.affix_checksum c) true a2 d h
          have h3 := affix_checksum_fields art c
          exact ⟨h2.1.trans h3.1, h2.2.1.trans h3.2.1, h2.2.2.1.trans h3.2.2.1,
            h2.2.2.2.trans h3.2.2.2⟩

lemma affixLoop_error_shape (H : Hasher) (fs : FS) (file : Path) (blob : Blob)
    (hfile : lookupFS fs file = some blob) :
    ∀ (cs : List Checksum) (art : Artifact) (added : Bool) (e : Err),
    affixLoop H fs file art added cs = .error e →
    ∃ c, e = Err.incorrectChecksum c file := by
  intro cs
  induction cs with
  | nil =>
    intro art added e h
    exact absurd h (by simp [affixLoop])
  | cons c rest ih =>
    intro art added e h
    simp only [affixLoop] at h
    by_cases hhc : art.has_checksum c.function
    · rw [if_pos hhc] at h
      exact ih art added e h
    · rw [if_neg hhc] at h
      rw [show c.check H fs file = .ok (H c.function blob == c.hex_hash) from by
        simp [Checksum.check, hfile]] at h
      by_cases hb : (H c.function blob == c.hex_hash) = true
      · rw [hb] at h
        exact ih (art.affix_checksum c) true e h
      · rw [Bool.not_eq_true] at hb
        rw [hb] at h
        exact ⟨c, (Except.error.inj h).symm⟩

lemma affixLoop_ok_of_matches (H : Hasher) (fs : FS) (file : Path) (blob : Blob)
    (hfile : lookupFS fs file = some blob) :
    ∀ (cs : List Checksum) (art : Artifact) (added : Bool),
    (∀ c ∈ cs, art.has_checksum c.function = false → H c.function blob = c.hex_hash) →
    ∃ a2 d, affixLoop H fs file art added cs = .ok (a2, d) := by
  intro cs
  induction cs with
  | nil => exact fun art added _ => ⟨art, added, rfl⟩
  | cons c rest ih =>
    intro art added hall
    simp only [affixLoop]
    by_cases hhc : art.has_checksum c.function
    · rw [if_pos hhc]
      exact ih art added (fun c2 hc2 => hall c2 (List.mem_cons_of_mem c hc2))
    · rw [if_neg hhc]
      have hc : H c.function blob = c.hex_hash :=
        hall c (List.mem_cons_self c rest) (Bool.not_eq_true _ ▸ hhc)
      rw [show c.check H fs file = .ok (H c.function blob == c.hex_hash) from by
        simp [Checksum.check, hfile]]
      rw [show (H c.function blob == c.hex_hash) = true from by simp [hc]]
      exact ih (art.affix_checksum c) true
        (fun c2 hc2 hf2 => hall c2 (List.mem_cons_of_mem c hc2) (affix_has_mono art c _ hf2))

lemma affix_has_other (a : Artifact) (c : Checksum) (f : HashFunc)
    (hne : ¬ f = c.function) :
    (a.affix_checksum c).has_checksum f = a.has_checksum f := by
  obtain ⟨cf, chex⟩ := c
  cases cf <;> cases f <;> simp_all [Artifact.affix_checksum, Artifact.has_checksum]

lemma affixLoop_error_of_mismatch (H : Hasher) (fs : FS) (file : Path) (blob : Blob)
    (hfile : lookupFS fs file = some blob) :
    ∀ (cs : List Checksum) (art : Artifact) (added : Bool),
    (cs.map (fun c => c.function)).Nodup →
    (∃ c ∈ cs, art.has_checksum c.function = false ∧ H c.function blob ≠ c.hex_hash) →
    ∃ e, affixLoop H fs file art added cs = .error e := by
  intro cs
  induction cs with
  | nil =>
    intro art added _ hex
    simp at hex
  | cons c rest ih =>
    intro art added hnd hex
    simp only [List.map_cons, List.nodup_cons] at hnd
    simp only [affixLoop]
    by_cases hhc : art.has_checksum c.function
    · rw [if_pos hhc]
      rcases hex with ⟨c2, hc2, habs, hmis⟩
      rcases List.mem_cons.mp hc2 with rfl | hc2r
      · exact absurd habs (by simp [hhc])
      · exact ih art added hnd.2 ⟨c2, hc2r, habs, hmis⟩
    · rw [if_neg hhc]
      rw [show c.check H fs file = .ok (H c.function blob == c.hex_hash) from by
        simp [Checksum.check, hfile]]
      by_cases hm : H c.function blob = c.hex_hash
      · rw [show (H c.function blob == c.hex_hash) = true from by simp [hm]]
        rcases hex with ⟨c2, hc2, habs, hmis⟩
        rcases List.mem_cons.mp hc2 with rfl | hc2r
        · exact absurd hm hmis
        · refine ih (art.affix_checksum c) true hnd.2 ⟨c2, hc2r, ?_, hmis⟩
          rw [affix_has_other art c c2.function ?_]
          · exact habs
          · intro hfe
            apply hnd.1
            rw [← hfe]
            exact List.mem_map_of_mem (fun c3 => c3.function) hc2r
      · rw [show (H c.function blob == c.hex_hash) = false from by simpa using hm]
        exact ⟨_, rfl⟩

lemma affixedColumn_present (checksum : List Checksum) (f : HashFunc) (col : Option String)
    (hcol : col.isSome = true) : affixedColumn checksum f col = col := by
  rcases hfind : checksum.find? (fun c2 => c2.function == f) with _ | c2 <;>
    simp [affixedColumn, hfind, hcol]

lemma affixedColumn_cons_of_ne (c : Checksum) (checksum : List Checksum) (f : HashFunc)
    (col : Option String) (hne : ¬ c.function = f) :
    affixedColumn (c :: checksum) f col = affixedColumn checksum f col := by
  unfold affixedColumn
  rw [List.find?_cons_of_neg _ (by simp [hne])]

lemma affixLoop_columns (H : Hasher) (fs : FS) (file : Path) :
    ∀ (cs : List Checksum) (art : Artifact) (added : Bool) (a2 : Artifact) (d : Bool),
    affixLoop H fs file art added cs = .ok (a2, d) →
    a2.sha1 = affixedColumn cs HashFunc.sha1 art.sha1
    ∧ a2.sha256 = affixedColumn cs HashFunc.sha256 art.sha256
    ∧ a2.md5 = art.md5 := by
  intro cs
  induction cs with
  | nil =>
    intro art added a2 d h
    simp only [affixLoop] at h
    obtain ⟨h1, _⟩ := Prod.mk.injEq .. ▸ (Except.ok.inj h)
    rw [← h1]
    exact ⟨rfl, rfl, rfl⟩
  | cons c rest ih =>
    intro art added a2 d h
    obtain ⟨cf, chex⟩ := c
    simp only [affixLoop] at h
    cases cf with
    | blake3 =>
      rw [if_pos (show art.has_checksum (Checksum.mk HashFunc.blake3 chex).function = true
        from rfl)] at h
      have hrec := ih art added a2 d h
      refine ⟨?_, ?_, hrec.2.2⟩
      · rw [affixedColumn_cons_of_ne ⟨HashFunc.blake3, chex⟩ rest HashFunc.sha1 art.sha1
          (by simp)]
        exact hrec.1
      · rw [affixedColumn_cons_of_ne ⟨HashFunc.blake3, chex⟩ rest HashFunc.sha256 art.sha256
          (by simp)]
        exact hrec.2.1
    | sha1 =>
      by_cases hs : art.sha1.isSome = true
      · rw [if_pos (show art.has_checksum (Checksum.mk HashFunc.sha1 chex).function = true
          from by simpa [Artifact.has_checksum] using hs)] at h
        have hrec := ih art added a2 d h
        refine ⟨?_, ?_, hrec.2.2⟩
        · rw [affixedColumn_present _ _ _ hs, hrec.1, affixedColumn_present _ _ _ hs]
        · rw [affixedColumn_cons_of_ne ⟨HashFunc.sha1, chex⟩ rest HashFunc.sha256 art.sha256
            (by simp)]
          exact hrec.2.1
      · rw [if_neg (show ¬ art.has_checksum (Checksum.mk HashFunc.sha1 chex).function = true
          from by simpa [Artifact.has_checksum] using hs)] at h
        rcases hck : (Checksum.mk HashFunc.sha1 chex).check H fs file with e | b <;>
          rw [hck] at h
        · exact absurd h (by simp)
        · cases b
          · exact absurd h (by simp)
          · have hrec := ih (art.affix_checksum ⟨HashFunc.sha1, chex⟩) true a2 d h
            have hart : art.sha1 = none := by
              rcases hv : art.sha1 with _ | x
              · rfl
              · rw [hv] at hs
                exact absurd rfl hs
            refine ⟨?_, ?_, ?_⟩
            · rw [hrec.1,
                show (art.affix_checksum ⟨HashFunc.sha1, chex⟩).sha1 = some chex from rfl,
                affixedColumn_present rest HashFunc.sha1 (some chex) rfl]
              have hpos : ((fun c : Checksum => c.function == HashFunc.sha1)
                  (⟨HashFunc.sha1, chex⟩ : Checksum)) = true := by simp
              unfold affixedColumn
              rw [List.find?_cons_of_pos rest hpos]
              simp [hart]
            · rw [hrec.2.1,
                show (art.affix_checksum ⟨HashFunc.sha1, chex⟩).sha256 = art.sha256 from rfl,
                affixedColumn_cons_of_ne ⟨HashFunc.sha1, chex⟩ rest HashFunc.sha256 art.sha256
                  (by simp)]
            · rw [hrec.2.2]
              rfl
    | sha256 =>
      by_cases hs : art.sha256.isSome = true
      · rw [if_pos (show art.has_checksum (Checksum.mk HashFunc.sha256 chex).function = true
          from by simpa [Artifact.has_checksum] using hs)] at h
        have hrec := ih art added a2 d h
        refine ⟨?_, ?_, hrec.2.2⟩
        · rw [affixedColumn_cons_of_ne ⟨HashFunc.sha256, chex⟩ rest HashFunc.sha1 art.sha1
            (by simp)]
          exact hrec.1
        · rw [affixedColumn_present _ _ _ hs, hrec.2.1, affixedColumn_present _ _ _ hs]
      · rw [if_neg (show ¬ art.has_checksum (Checksum.mk HashFunc.sha256 chex).function = true
          from by simpa [Artifact.has_checksum] using hs)] at h
        rcases hck : (Checksum.mk HashFunc.sha256 chex).check H fs file with e | b <;>
          rw [hck] at h
        · exact absurd h (by simp)
        · cases b
          · exact absurd h (by simp)
          · have hrec := ih (art.affix_checksum ⟨HashFunc.sha256, chex⟩) true a2 d h
            have hart : art.sha256 = none := by
              rcases hv : art.sha256 with _ | x
              · rfl
              · rw [hv] at hs
                exact absurd rfl hs
            refine ⟨?_, ?_, ?_⟩
            · rw [hrec.1,
                show (art.affix_checksum ⟨HashFunc.sha256, chex⟩).sha1 = art.sha1 from rfl,
                affixedColumn_cons_of_ne ⟨HashFunc.sha256, chex⟩ rest HashFunc.sha1 art.sha1
                  (by simp)]
            · rw [hrec.2.1,
                show (art.affix_checksum ⟨HashFunc.sha256, chex⟩).sha256 = some chex from rfl,
                affixedColumn_present rest HashFunc.sha256 (some chex) rfl]
              have hpos : ((fun c : Checksum => c.function == HashFunc.sha256)
                  (⟨HashFunc.sha256, chex⟩ : Checksum)) = true := by simp
              unfold affixedColumn
              rw [List.find?_cons_of_pos rest hpos]
              simp [hart]
            · rw [hrec.2.2]
              rfl

lemma affixChecksum_fs (H : Hasher) (st : StorageState) (b3 : String) (cs : List Checksum) :
    (affixChecksum H st b3 cs).2.fs = st.fs := by
  rcases hf : findArtifact st b3 with _ | art
  · simp [affixChecksum, hf]
  · rcases hl : affixLoop H st.fs (storagePath art.blake3) art false cs with e | ⟨a2, added⟩
    · simp [affixChecksum, hf, hl]
    · cases added <;> simp [affixChecksum, hf, hl]

lemma affixChecksum_index_length (H : Hasher) (st : StorageState) (b3 : String)
    (cs : List Checksum) :
    (affixChecksum H st b3 cs).2.index.length = st.index.length := by
  rcases hf : findArtifact st b3 with _ | art
  · simp [affixChecksum, hf]
  · rcases hl : affixLoop H st.fs (storagePath art.blake3) art false cs with e | ⟨a2, added⟩
    · simp [affixChecksum, hf, hl]
    · cases added
      · simp [affixChecksum, hf, hl]
      · simp [affixChecksum, hf, hl, updateChecksumColumns]

lemma updateChecksumColumns_unique (rows : List Artifact) (b3 : String) (art : Artifact)
    (hu : uniqueIndex rows) : uniqueIndex (updateChecksumColumns rows b3 art) := by
  unfold updateChecksumColumns uniqueIndex
  rw [List.pairwise_map]
  have hf : ∀ r : Artifact,
      (if r.blake3 == b3 then { r with sha1 := art.sha1, sha256 := art.sha256, md5 := art.md5 }
       else r).blake3 = r.blake3 := by
    intro r
    split <;> rfl
  exact hu.imp (fun {x y} h => by rw [hf x, hf y]; exact h)

lemma affixChecksum_unique (H : Hasher) (st : StorageState) (b3 : String)
    (cs : List Checksum) (hu : uniqueIndex st.index) :
    uniqueIndex (affixChecksum H st b3 cs).2.index := by
  rcases hf : findArtifact st b3 with _ | art
  · simpa [affixChecksum, hf] using hu
  · rcases hl : affixLoop H st.fs (storagePath art.blake3) art false cs with e | ⟨a2, added⟩
    · simpa [affixChecksum, hf, hl] using hu
    · cases added
      · simpa [affixChecksum, hf, hl] using hu
      · have h2 := updateChecksumColumns_unique st.index b3 a2 hu
        simpa [affixChecksum, hf, hl] using h2

lemma addArtifact_unique (st : StorageState) (a : Artifact) (hu : uniqueIndex st.index) :
    uniqueIndex (addArtifact st a).index := by
  rcases hf : findArtifact st a.blake3 with _ | x
  · have hgoal : (addArtifact st a).index = st.index ++ [a] := by
      simp [addArtifact, hf]
    rw [hgoal]
    unfold uniqueIndex at hu ⊢
    rw [List.pairwise_append]
    refine ⟨hu, List.pairwise_singleton _ _, ?_⟩
    intro x hx y hy
    rw [List.mem_singleton] at hy
    subst hy
    have hne := List.find?_eq_none.mp hf x hx
    simp only [beq_iff_eq] at hne
    exact hne
  · simpa [addArtifact, hf] using hu

lemma storeLoop_error_iff (H : Hasher) (fs : FS) (file : Path) (content : Blob)
    (hfile : lookupFS fs file = some content) :
    ∀ (cs : List Checksum) (art : Artifact),
    (∃ e, storeLoop H fs file (H HashFunc.blake3 content) art cs = .error e)
      ↔ ∃ c ∈ cs, H c.function content ≠ c.hex_hash := by
  intro cs
  induction cs with
  | nil =>
    intro art
    simp [storeLoop]
  | cons c rest ih =>
    intro art
    simp only [storeLoop]
    by_cases hbm : (c.function == HashFunc.blake3 && c.hex_hash != H HashFunc.blake3 content) = true
    · rw [if_pos hbm]
      simp only [Bool.and_eq_true, beq_iff_eq, bne_iff_ne] at hbm
      constructor
      · intro _
        exact ⟨c, List.mem_cons_self c rest, by rw [hbm.1]; exact fun hh => hbm.2 hh.symm⟩
      · intro _
        exact ⟨Err.brokenFile file c, rfl⟩
    · rw [if_neg hbm]
      rw [show c.check H fs file = .ok (H c.function content == c.hex_hash) from by
        simp [Checksum.check, hfile]]
      by_cases hc : H c.function content = c.hex_hash
      · rw [show (H c.function content == c.hex_hash) = true from by simp [hc]]
        rw [ih (art.affix_checksum c)]
        constructor
        · intro ⟨c2, hc2, hne2⟩
          exact ⟨c2, List.mem_cons_of_mem c hc2, hne2⟩
        · intro ⟨c2, hc2, hne2⟩
          rcases List.mem_cons.mp hc2 with h2 | h2
          · subst h2; exact absurd hc hne2
          · exact ⟨c2, h2, hne2⟩
      · rw [show (H c.function content == c.hex_hash) = false from by
          simpa using hc]
        constructor
        · intro _
          exact ⟨c, List.mem_cons_self c rest, hc⟩
        · intro _
          exact ⟨Err.brokenFile file c, rfl⟩

lemma mvFS_ok (fs : FS) (src dst : Path) (content : Blob)
    (hfile : lookupFS fs src = some content) :
    ∃ fs2, mvFS fs src dst = (.ok (), fs2) := by
  by_cases hd : src = dst
  · subst hd
    exact ⟨insertFS (eraseFS (insertFS fs src []) src) src [],
      by simp [mvFS, lookupFS_insert_self]⟩
  · exact ⟨insertFS (eraseFS (insertFS fs dst []) src) dst content,
      by simp [mvFS, lookupFS_insert_other fs dst src [] hd, hfile]⟩

lemma store_eq_of_found (H : Hasher) (st : StorageState) (file : Path) (name src : String)
    (cs : List Checksum) (content : Blob) (row : Artifact)
    (hlk : lookupFS st.fs file = some content)
    (hf : findArtifact st (H HashFunc.blake3 content) = some row) :
    store H st file name src cs = affixChecksum H st (H HashFunc.blake3 content) cs := by
  simp [store, hlk, hf]

lemma store_eq_of_new (H : Hasher) (st : StorageState) (file : Path) (name src : String)
    (cs : List Checksum) (content : Blob)
    (hlk : lookupFS st.fs file = some content)
    (hf : findArtifact st (H HashFunc.blake3 content) = none) :
    store H st file name src cs =
      (match storeLoop H st.fs file (H HashFunc.blake3 content)
          (Artifact.new (H HashFunc.blake3 content) name src content.length) cs with
       | .error e => (.error e, st)
       | .ok art =>
         match mvFS st.fs file (storagePath (H HashFunc.blake3 content)) with
         | (.error e, fs2) => (.error e, { st with fs := fs2 })
         | (.ok _, fs2) => (.ok art, addArtifact { st with fs := fs2 } art)) := by
  simp [store, hlk, hf]

lemma store_unique (H : Hasher) (st : StorageState) (file : Path) (name src : String)
    (cs : List Checksum) (hu : uniqueIndex st.index) :
    uniqueIndex (store H st file name src cs).2.index := by
  rcases hlk : lookupFS st.fs file with _ | content
  · simpa [store, hlk] using hu
  · rcases hf : findArtifact st (H HashFunc.blake3 content) with _ | row
    · rw [store_eq_of_new H st file name src cs content hlk hf]
      rcases hsl : storeLoop H st.fs file (H HashFunc.blake3 content)
          (Artifact.new (H HashFunc.blake3 content) name src content.length) cs with e | art
      · simpa [hsl] using hu
      · rcases hmv : mvFS st.fs file (storagePath (H HashFunc.blake3 content)) with ⟨res, fs2⟩
        rcases res with e | u
        · simpa [hsl, hmv] using hu
        · have h2 := addArtifact_unique { st with fs := fs2 } art hu
          simpa [hsl, hmv] using h2
    · rw [store_eq_of_found H st file name src cs content row hlk hf]
      exact affixChecksum_unique H st (H HashFunc.blake3 content) cs hu

/-- C8: when the staged file exists and its BLAKE3 digest is not yet
indexed, `store` fails (with a corruption error) iff some supplied checksum
does not match the file, and on failure neither the filesystem nor the
index is changed. -/
theorem store_corruption_iff (H : Hasher) (st : StorageState) (file : Path)
    (name src : String) (cs : List Checksum) (content : Blob)
    (hfile : lookupFS st.fs file = some content)
    (hnew : findArtifact st (H HashFunc.blake3 content) = none) :
    ((∃ e, (store H st file name src cs).1 = .error e)
      ↔ ∃ c ∈ cs, H c.function content ≠ c.hex_hash)
    ∧ (∀ e, (store H st file name src cs).1 = .error e
        → (store H st file name src cs).2 = st) := by
  have hstore := store_eq_of_new H st file name src cs content hfile hnew
  rcases hsl : storeLoop H st.fs file (H HashFunc.blake3 content)
      (Artifact.new (H HashFunc.blake3 content) name src content.length) cs with e | art
  · rw [hsl] at hstore
    constructor
    · rw [show (store H st file name src cs).1 = .error e from by simp [hstore]]
      rw [← storeLoop_error_iff H st.fs file content hfile cs
        (Artifact.new (H HashFunc.blake3 content) name src content.length)]
      constructor
      · intro _; exact ⟨e, hsl⟩
      · intro _; exact ⟨e, rfl⟩
    · intro e2 _
      simp [hstore]
  · rw [hsl] at hstore
    obtain ⟨fs2, hmv⟩ := mvFS_ok st.fs file (storagePath (H HashFunc.blake3 content))
      content hfile
    rw [hmv] at hstore
    constructor
    · rw [show (store H st file name src cs).1 = .ok art from by simp [hstore]]
      constructor
      · intro ⟨e, he⟩
        exact absurd he (by simp)
      · intro hmis
        obtain ⟨e, he⟩ := (storeLoop_error_iff H st.fs file content hfile cs
          (Artifact.new (H HashFunc.blake3 content) name src content.length)).mpr hmis
        rw [hsl] at he
        exact absurd he (by simp)
    · intro e2 he2
      rw [show (store H st file name src cs).1 = .ok art from by simp [hstore]] at he2
      exact absurd he2 (by simp)

/-- C8 witness: a state with one staged file and an empty index; a wrong
SHA-1 makes `store` fail and leaves the state untouched. -/
theorem store_corruption_iff_witness :
    (store toyHash c8State "staged" "n" "u" [Checksum.sha1 "bad"]).2 = c8State :=
  (store_corruption_iff toyHash c8State "staged" "n" "u" [Checksum.sha1 "bad"] [1]
    rfl rfl).2 (Err.brokenFile "staged" (Checksum.sha1 "bad")) rfl

/-- C9: the index never holds two rows with the same `blake3`: `add`,
`affix_checksum` and `store` preserve pairwise distinctness of the primary
key, and storing a file whose digest is already indexed is exactly an affix
onto the existing row, inserting nothing. -/
theorem index_unique_preserved (H : Hasher) (st : StorageState) (a : Artifact)
    (b3 : String) (cs : List Checksum) (file name src : String)
    (hu : uniqueIndex st.index) :
    uniqueIndex (addArtifact st a).index
    ∧ uniqueIndex (affixChecksum H st b3 cs).2.index
    ∧ uniqueIndex (store H st file name src cs).2.index
    ∧ (∀ content row, lookupFS st.fs file = some content →
        findArtifact st (H HashFunc.blake3 content) = some row →
        store H st file name src cs = affixChecksum H st (H HashFunc.blake3 content) cs
        ∧ (store H st file name src cs).2.index.length = st.index.length) := by
  refine ⟨addArtifact_unique st a hu, affixChecksum_unique H st b3 cs hu,
    store_unique H st file name src cs hu, ?_⟩
  intro content row h1 h2
  have heq := store_eq_of_found H st file name src cs content row h1 h2
  refine ⟨heq, ?_⟩
  rw [heq]
  exact affixChecksum_index_length H st (H HashFunc.blake3 content) cs

/-- C9 witness: the preservation theorem applied to the one-row state
`c7State`. -/
theorem index_unique_preserved_witness :
    uniqueIndex (addArtifact c7State artA).index :=
  (index_unique_preserved toyHash c7State artA "B7" [] "f" "n" "u"
    (by simp [uniqueIndex, c7State])).1

/-- C7 counterexample: the SHA-1 `S7` matches an existing row, so no HTTP
transfer happens, but the additional SHA-256 `X` fails verification against
the stored blob and `download` returns a corruption error instead of the
existing artifact. -/
theorem download_shortcircuit_cex :
    findChecksumRow c7State (Checksum.sha1 "S7") = some c7Row
    ∧ (download toyHash toyHttp c7State "n" "u" none
        [Checksum.sha1 "S7", Checksum.sha256 "X"]).1
      = .error (.incorrectChecksum (Checksum.sha256 "X") (storagePath "B7"))
    ∧ (download toyHash toyHttp c7State "n" "u" none
        [Checksum.sha1 "S7", Checksum.sha256 "X"]).2.2 = false := by
  refine ⟨rfl, rfl, rfl⟩

/-- C7 amended: when a supplied checksum matches an existing index row (and
the row's blob is on disk), `download` performs no HTTP transfer, leaves
the filesystem unchanged, and any failure it reports is a corruption
error.  If every supplied checksum absent from the row verifies against
the stored blob, it returns the existing artifact with those checksums
affixed: every empty checksum column is filled by the first supplied
digest of that algorithm, present columns and `md5` are unchanged, and
`blake3`/`name`/`src`/`len` are the row's.  Conversely, when the supplied
checksums carry at most one digest per algorithm (as at every call site),
a supplied checksum that is absent from the row and fails verification
against the blob makes `download` fail with a corruption error. -/
theorem download_shortcircuit (H : Hasher) (http : String → Blob) (st : StorageState)
    (name src : String) (len : Option Nat) (cs : List Checksum)
    (art : Artifact) (blob : Blob)
    (hmatch : firstChecksumMatch st cs = some art)
    (hfind : findArtifact st art.blake3 = some art)
    (hblob : lookupFS st.fs (storagePath art.blake3) = some blob) :
    (download H http st name src len cs).2.2 = false
    ∧ (download H http st name src len cs).2.1.fs = st.fs
    ∧ (∀ e, (download H http st name src len cs).1 = .error e →
        ∃ c f2, e = Err.incorrectChecksum c f2)
    ∧ ((cs.map (fun c => c.function)).Nodup →
        (∃ c ∈ cs, art.has_checksum c.function = false ∧ H c.function blob ≠ c.hex_hash) →
        ∃ c2, (download H http st name src len cs).1
          = .error (Err.incorrectChecksum c2 (storagePath art.blake3)))
    ∧ ((∀ c ∈ cs, art.has_checksum c.function = false → H c.function blob = c.hex_hash) →
        ∃ a2, (download H http st name src len cs).1 = .ok a2
          ∧ a2.blake3 = art.blake3 ∧ a2.name = art.name
          ∧ a2.src = art.src ∧ a2.len = art.len
          ∧ a2.sha1 = affixedColumn cs HashFunc.sha1 art.sha1
          ∧ a2.sha256 = affixedColumn cs HashFunc.sha256 art.sha256
          ∧ a2.md5 = art.md5) := by
  have hdl : download H http st name src len cs =
      ((affixChecksum H st art.blake3 cs).1, (affixChecksum H st art.blake3 cs).2, false) := by
    unfold download
    rw [hmatch]
  have hfst : (download H http st name src len cs).1
      = (affixChecksum H st art.blake3 cs).1 := by rw [hdl]
  refine ⟨by rw [hdl], by rw [hdl]; exact affixChecksum_fs H st art.blake3 cs, ?_, ?_, ?_⟩
  · intro e he
    rw [hfst] at he
    rcases hl : affixLoop H st.fs (storagePath art.blake3) art false cs
        with e2 | ⟨a2, added⟩
    · obtain ⟨c, hc⟩ := affixLoop_error_shape H st.fs (storagePath art.blake3) blob hblob
        cs art false e2 hl
      have h1 : (affixChecksum H st art.blake3 cs).1 = .error e2 := by
        simp [affixChecksum, hfind, hl]
      rw [h1] at he
      exact ⟨c, storagePath art.blake3, by rw [← Except.error.inj he]; exact hc⟩
    · have h1 : (affixChecksum H st art.blake3 cs).1 = .ok a2 := by
        cases added <;> simp [affixChecksum, hfind, hl]
      rw [h1] at he
      exact absurd he (by simp)
  · intro hnd hex
    obtain ⟨e, hl⟩ := affixLoop_error_of_mismatch H st.fs (storagePath art.blake3) blob
      hblob cs art false hnd hex
    obtain ⟨c2, hc2⟩ := affixLoop_error_shape H st.fs (storagePath art.blake3) blob hblob
      cs art false e hl
    refine ⟨c2, ?_⟩
    have h1 : (affixChecksum H st art.blake3 cs).1 = .error e := by
      simp [affixChecksum, hfind, hl]
    rw [hfst, h1, hc2]
  · intro hall
    obtain ⟨a2, d, hl⟩ := affixLoop_ok_of_matches H st.fs (storagePath art.blake3) blob
      hblob cs art false hall
    have hfields := affixLoop_fields H st.fs (storagePath art.blake3) cs art false a2 d hl
    have hcols := affixLoop_columns H st.fs (storagePath art.blake3) cs art false a2 d hl
    have h1 : (affixChecksum H st art.blake3 cs).1 = .ok a2 := by
      cases d <;> simp [affixChecksum, hfind, hl]
    exact ⟨a2, by rw [hfst, h1], hfields.1, hfields.2.1, hfields.2.2.1, hfields.2.2.2,
      hcols.1, hcols.2.1, hcols.2.2⟩

/-- C7 witness: the amended theorem applied to the concrete state `c7State`
with a matching SHA-1 and no further checksums to affix. -/
theorem download_shortcircuit_witness :
    (download toyHash toyHttp c7State "n" "u" none [Checksum.sha1 "S7"]).2.2 = false :=
  (download_shortcircuit toyHash toyHttp c7State "n" "u" none [Checksum.sha1 "S7"]
    c7Row [3] rfl rfl rfl).1

/-- C1: on the concrete state `c1State`, whose index row `B` sits over a
blob that fails BLAKE3 verification, `retrieve` performs no HTTP transfer,
changes nothing, and returns the path of the still-corrupt blob: the
BLAKE3-keyed short-circuit in `download` finds the same corrupt row and
`affix_checksum` skips the BLAKE3 column, so no re-download happens. -/
theorem retrieve_corruption_unrecovered :
    retrieve toyHash toyHttp c1State c1Row
      = (.ok (storagePath "B"), c1State, false)
    ∧ lookupFS c1State.fs (storagePath "B") = some [9]
    ∧ toyHash HashFunc.blake3 [9] ≠ "B" := by
  refine ⟨rfl, rfl, by decide⟩

/-! Helper lemmas for the semver range bridge. -/

lemma then_eqR (x : Ordering) : x.then .eq = x := by cases x <;> rfl

lemma then_lt {x y : Ordering} : x.then y = .lt ↔ x = .lt ∨ (x = .eq ∧ y = .lt) := by
  cases x <;> simp [Ordering.then]

lemma then_ne_gt {x y : Ordering} : ¬ x.then y = .gt ↔ x = .lt ∨ (x = .eq ∧ ¬ y = .gt) := by
  cases x <;> simp [Ordering.then]

lemma ncmp_lt {a b : Nat} : ncmp a b = .lt ↔ a < b := by
  unfold ncmp
  split_ifs <;> simp_all <;> omega

lemma ncmp_eq {a b : Nat} : ncmp a b = .eq ↔ a = b := by
  unfold ncmp
  split_ifs <;> simp_all <;> omega

lemma ncmp_ne_gt {a b : Nat} : ¬ ncmp a b = .gt ↔ a ≤ b := by
  unfold ncmp
  split_ifs <;> simp_all <;> omega

lemma comp_release (a b c d e f : Nat) :
    Version.comp ⟨a, b, c, [], []⟩ ⟨d, e, f, [], []⟩
      = (ncmp a d).then ((ncmp b e).then (ncmp c f)) := by
  simp [Version.comp, preCompare, preIdsCompare, then_eqR]

lemma ord_beq_lt_iff {x : Ordering} : (x == Ordering.lt) = true ↔ x = Ordering.lt := by
  cases x <;> decide

lemma ord_bne_gt_iff {x : Ordering} : (x != Ordering.gt) = true ↔ ¬ x = Ordering.gt := by
  cases x <;> decide

lemma vltB_rel {a b c d e f : Nat} :
    vltB ⟨a, b, c, [], []⟩ ⟨d, e, f, [], []⟩ = true
      ↔ (a < d ∨ (a = d ∧ (b < e ∨ (b = e ∧ c < f)))) := by
  simp only [vltB, comp_release, ord_beq_lt_iff, then_lt, ncmp_lt, ncmp_eq]

lemma vleB_rel {a b c d e f : Nat} :
    vleB ⟨a, b, c, [], []⟩ ⟨d, e, f, [], []⟩ = true
      ↔ (a < d ∨ (a = d ∧ (b < e ∨ (b = e ∧ c ≤ f)))) := by
  simp only [vleB, comp_release, ord_bne_gt_iff, then_ne_gt, ncmp_lt, ncmp_eq, ncmp_ne_gt]

lemma loMax_ok_ii (pa pb pc qa qb qc va vb vc : Nat) :
    loOk (loMax (.included ⟨pa, pb, pc, [], []⟩) (.included ⟨qa, qb, qc, [], []⟩))
        ⟨va, vb, vc, [], []⟩
      = (loOk (.included ⟨pa, pb, pc, [], []⟩) ⟨va, vb, vc, [], []⟩
         && loOk (.included ⟨qa, qb, qc, [], []⟩) ⟨va, vb, vc, [], []⟩) := by
  simp only [loMax]
  rw [Bool.eq_iff_iff]
  simp only [Bool.and_eq_true]
  split <;> rename_i h <;> rw [vltB_rel] at h <;> simp only [loOk, vleB_rel] <;> omega

lemma loMax_ok_ie (pa pb pc qa qb qc va vb vc : Nat) :
    loOk (loMax (.included ⟨pa, pb, pc, [], []⟩) (.excluded ⟨qa, qb, qc, [], []⟩))
        ⟨va, vb, vc, [], []⟩
      = (loOk (.included ⟨pa, pb, pc, [], []⟩) ⟨va, vb, vc, [], []⟩
         && loOk (.excluded ⟨qa, qb, qc, [], []⟩) ⟨va, vb, vc, [], []⟩) := by
  simp only [loMax]
  rw [Bool.eq_iff_iff]
  simp only [Bool.and_eq_true]
  split <;> rename_i h <;> rw [vltB_rel] at h <;>
    simp only [loOk, vleB_rel, vltB_rel] <;> omega

lemma loMax_ok_ei (pa pb pc qa qb qc va vb vc : Nat) :
    loOk (loMax (.excluded ⟨pa, pb, pc, [], []⟩) (.included ⟨qa, qb, qc, [], []⟩))
        ⟨va, vb, vc, [], []⟩
      = (loOk (.excluded ⟨pa, pb, pc, [], []⟩) ⟨va, vb, vc, [], []⟩
         && loOk (.included ⟨qa, qb, qc, [], []⟩) ⟨va, vb, vc, [], []⟩) := by
  simp only [loMax]
  rw [Bool.eq_iff_iff]
  simp only [Bool.and_eq_true]
  split <;> rename_i h <;> rw [vltB_rel] at h <;>
    simp only [loOk, vleB_rel, vltB_rel] <;> omega

lemma loMax_ok_ee (pa pb pc qa qb qc va vb vc : Nat) :
    loOk (loMax (.excluded ⟨pa, pb, pc, [], []⟩) (.excluded ⟨qa, qb, qc, [], []⟩))
        ⟨va, vb, vc, [], []⟩
      = (loOk (.excluded ⟨pa, pb, pc, [], []⟩) ⟨va, vb, vc, [], []⟩
         && loOk (.excluded ⟨qa, qb, qc, [], []⟩) ⟨va, vb, vc, [], []⟩) := by
  simp only [loMax]
  rw [Bool.eq_iff_iff]
  simp only [Bool.and_eq_true]
  split <;> rename_i h <;> rw [vltB_rel] at h <;> simp only [loOk, vltB_rel] <;> omega

lemma hiMin_ok_ii (pa pb pc qa qb qc va vb vc : Nat) :
    hiOk (hiMin (.included ⟨pa, pb, pc, [], []⟩) (.included ⟨qa, qb, qc, [], []⟩))
        ⟨va, vb, vc, [], []⟩
      = (hiOk (.included ⟨pa, pb, pc, [], []⟩) ⟨va, vb, vc, [], []⟩
         && hiOk (.included ⟨qa, qb, qc, [], []⟩) ⟨va, vb, vc, [], []⟩) := by
  simp only [hiMin]
  rw [Bool.eq_iff_iff]
  simp only [Bool.and_eq_true]
  split <;> rename_i h <;> rw [vltB_rel] at h <;> simp only [hiOk, vleB_rel] <;> omega

lemma hiMin_ok_ie (pa pb pc qa qb qc va vb vc : Nat) :
    hiOk (hiMin (.included ⟨pa, pb, pc, [], []⟩) (.excluded ⟨qa, qb, qc, [], []⟩))
        ⟨va, vb, vc, [], []⟩
      = (hiOk (.included ⟨pa, pb, pc, [], []⟩) ⟨va, vb, vc, [], []⟩
         && hiOk (.excluded ⟨qa, qb, qc, [], []⟩) ⟨va, vb, vc, [], []⟩) := by
  simp only [hiMin]
  rw [Bool.eq_iff_iff]
  simp only [Bool.and_eq_true]
  split <;> rename_i h <;> rw [vltB_rel] at h <;>
    simp only [hiOk, vleB_rel, vltB_rel] <;> omega

lemma hiMin_ok_ei (pa pb pc qa qb qc va vb vc : Nat) :
    hiOk (hiMin (.excluded ⟨pa, pb, pc, [], []⟩) (.included ⟨qa, qb, qc, [], []⟩))
        ⟨va, vb, vc, [], []⟩
      = (hiOk (.excluded ⟨pa, pb, pc, [], []⟩) ⟨va, vb, vc, [], []⟩
         && hiOk (.included ⟨qa, qb, qc, [], []⟩) ⟨va, vb, vc, [], []⟩) := by
  simp only [hiMin]
  rw [Bool.eq_iff_iff]
  simp only [Bool.and_eq_true]
  split <;> rename_i h <;> rw [vltB_rel] at h <;>
    simp only [hiOk, vleB_rel, vltB_rel] <;> omega

lemma hiMin_ok_ee (pa pb pc qa qb qc va vb vc : Nat) :
    hiOk (hiMin (.excluded ⟨pa, pb, pc, [], []⟩) (.excluded ⟨qa, qb, qc, [], []⟩))
        ⟨va, vb, vc, [], []⟩
      = (hiOk (.excluded ⟨pa, pb, pc, [], []⟩) ⟨va, vb, vc, [], []⟩
         && hiOk (.excluded ⟨qa, qb, qc, [], []⟩) ⟨va, vb, vc, [], []⟩) := by
  simp only [hiMin]
  rw [Bool.eq_iff_iff]
  simp only [Bool.and_eq_true]
  split <;> rename_i h <;> rw [vltB_rel] at h <;> simp only [hiOk, vltB_rel] <;> omega

lemma loMax_ok {x y : VBound} {v : Version} (hx : relB x) (hy : relB y) (hv : relV v) :
    loOk (loMax x y) v = (loOk x v && loOk y v) := by
  obtain ⟨va, vb, vc, vpre, vbld⟩ := v
  obtain ⟨h1, h2⟩ := hv
  subst h1; subst h2
  cases x with
  | unbounded => simp [loMax, loOk]
  | included p =>
    obtain ⟨p1, p2, p3, p4, p5⟩ := p
    obtain ⟨hp1, hp2⟩ := hx
    subst hp1; subst hp2
    cases y with
    | unbounded => simp [loMax, loOk]
    | included q =>
      obtain ⟨q1, q2, q3, q4, q5⟩ := q
      obtain ⟨hq1, hq2⟩ := hy
      subst hq1; subst hq2
      exact loMax_ok_ii p1 p2 p3 q1 q2 q3 va vb vc
    | excluded q =>
      obtain ⟨q1, q2, q3, q4, q5⟩ := q
      obtain ⟨hq1, hq2⟩ := hy
      subst hq1; subst hq2
      exact loMax_ok_ie p1 p2 p3 q1 q2 q3 va vb vc
  | excluded p =>
    obtain ⟨p1, p2, p3, p4, p5⟩ := p
    obtain ⟨hp1, hp2⟩ := hx
    subst hp1; subst hp2
    cases y with
    | unbounded => simp [loMax, loOk]
    | included q =>
      obtain ⟨q1, q2, q3, q4, q5⟩ := q
      obtain ⟨hq1, hq2⟩ := hy
      subst hq1; subst hq2
      exact loMax_ok_ei p1 p2 p3 q1 q2 q3 va vb vc
    | excluded q =>
      obtain ⟨q1, q2, q3, q4, q5⟩ := q
      obtain ⟨hq1, hq2⟩ := hy
      subst hq1; subst hq2
      exact loMax_ok_ee p1 p2 p3 q1 q2 q3 va vb vc

lemma hiMin_ok {x y : VBound} {v : Version} (hx : relB x) (hy : relB y) (hv : relV v) :
    hiOk (hiMin x y) v = (hiOk x v && hiOk y v) := by
  obtain ⟨va, vb, vc, vpre, vbld⟩ := v
  obtain ⟨h1, h2⟩ := hv
  subst h1; subst h2
  cases x with
  | unbounded => simp [hiMin, hiOk]
  | included p =>
    obtain ⟨p1, p2, p3, p4, p5⟩ := p
    obtain ⟨hp1, hp2⟩ := hx
    subst hp1; subst hp2
    cases y with
    | unbounded => simp [hiMin, hiOk]
    | included q =>
      obtain ⟨q1, q2, q3, q4, q5⟩ := q
      obtain ⟨hq1, hq2⟩ := hy
      subst hq1; subst hq2
      exact hiMin_ok_ii p1 p2 p3 q1 q2 q3 va vb vc
    | excluded q =>
      obtain ⟨q1, q2, q3, q4, q5⟩ := q
      obtain ⟨hq1, hq2⟩ := hy
      subst hq1; subst hq2
      exact hiMin_ok_ie p1 p2 p3 q1 q2 q3 va vb vc
  | excluded p =>
    obtain ⟨p1, p2, p3, p4, p5⟩ := p
    obtain ⟨hp1, hp2⟩ := hx
    subst hp1; subst hp2
    cases y with
    | unbounded => simp [hiMin, hiOk]
    | included q =>
      obtain ⟨q1, q2, q3, q4, q5⟩ := q
      obtain ⟨hq1, hq2⟩ := hy
      subst hq1; subst hq2
      exact hiMin_ok_ei p1 p2 p3 q1 q2 q3 va vb vc
    | excluded q =>
      obtain ⟨q1, q2, q3, q4, q5⟩ := q
      obtain ⟨hq1, hq2⟩ := hy
      subst hq1; subst hq2
      exact hiMin_ok_ee p1 p2 p3 q1 q2 q3 va vb vc

lemma loMax_rel {x y : VBound} (hx : relB x) (hy : relB y) : relB (loMax x y) := by
  cases x with
  | unbounded => simpa [loMax] using hy
  | included a =>
    cases y with
    | unbounded => simpa [loMax] using hx
    | included b =>
      simp only [loMax]
      split
      · exact hy
      · exact hx
    | excluded b =>
      simp only [loMax]
      split
      · exact hx
      · exact hy
  | excluded a =>
    cases y with
    | unbounded => simpa [loMax] using hx
    | included b =>
      simp only [loMax]
      split
      · exact hy
      · exact hx
    | excluded b =>
      simp only [loMax]
      split
      · exact hy
      · exact hx

lemma hiMin_rel {x y : VBound} (hx : relB x) (hy : relB y) : relB (hiMin x y) := by
  cases x with
  | unbounded => simpa [hiMin] using hy
  | included a =>
    cases y with
    | unbounded => simpa [hiMin] using hx
    | included b =>
      simp only [hiMin]
      split
      · exact hx
      · exact hy
    | excluded b =>
      simp only [hiMin]
      split
      · exact hx
      · exact hy
  | excluded a =>
    cases y with
    | unbounded => simpa [hiMin] using hx
    | included b =>
      simp only [hiMin]
      split
      · exact hy
      · exact hx
    | excluded b =>
      simp only [hiMin]
      split
      · exact hx
      · exact hy

lemma inter_rel {r s : VRanges} (hr : relR r) (hs : relR s) : relR (r.intersection s) :=
  ⟨loMax_rel hr.1 hs.1, hiMin_rel hr.2 hs.2⟩

lemma inter_containsB {r s : VRanges} {v : Version} (hr : relR r) (hs : relR s)
    (hv : relV v) :
    (r.intersection s).containsB v = (r.containsB v && s.containsB v) := by
  obtain ⟨rlo, rhi⟩ := r
  obtain ⟨slo, shi⟩ := s
  simp only [VRanges.intersection, VRanges.containsB]
  rw [loMax_ok hr.1 hs.1 hv, hiMin_ok hr.2 hs.2 hv]
  cases loOk rlo v <;> cases loOk slo v <;> cases hiOk rhi v <;> cases hiOk shi v <;> rfl

lemma ord_eq_beq_gt : (Ordering.eq == Ordering.gt) = false := rfl

lemma ord_eq_beq_lt : (Ordering.eq == Ordering.lt) = false := rfl

lemma ord_eq_bne_lt : (Ordering.eq != Ordering.lt) = true := rfl

lemma mExact_nn (op : Op) (M va vb vc : Nat) :
    matchesExact ⟨op, M, none, none, []⟩ ⟨va, vb, vc, [], []⟩ = true ↔ va = M := by
  simp [matchesExact]

lemma mExact_sn (op : Op) (M m va vb vc : Nat) :
    matchesExact ⟨op, M, some m, none, []⟩ ⟨va, vb, vc, [], []⟩ = true
      ↔ (va = M ∧ vb = m) := by
  simp [matchesExact]

lemma mExact_ss (op : Op) (M m p va vb vc : Nat) :
    matchesExact ⟨op, M, some m, some p, []⟩ ⟨va, vb, vc, [], []⟩ = true
      ↔ (va = M ∧ vb = m ∧ vc = p) := by
  simp [matchesExact]
  omega

lemma mGreater_nn (op : Op) (M va vb vc : Nat) :
    matchesGreater ⟨op, M, none, none, []⟩ ⟨va, vb, vc, [], []⟩ = true ↔ M < va := by
  by_cases hA : va = M
  · subst hA
    simp [matchesGreater] <;> omega
  · simp [matchesGreater, hA] <;> omega

lemma mGreater_sn (op : Op) (M m va vb vc : Nat) :
    matchesGreater ⟨op, M, some m, none, []⟩ ⟨va, vb, vc, [], []⟩ = true
      ↔ (M < va ∨ (va = M ∧ m < vb)) := by
  by_cases hA : va = M
  · subst hA
    by_cases hB : vb = m
    · subst hB
      simp [matchesGreater] <;> omega
    · simp [matchesGreater, hB] <;> omega
  · simp [matchesGreater, hA] <;> omega

lemma mGreater_ss (op : Op) (M m p va vb vc : Nat) :
    matchesGreater ⟨op, M, some m, some p, []⟩ ⟨va, vb, vc, [], []⟩ = true
      ↔ (M < va ∨ (va = M ∧ (m < vb ∨ (vb = m ∧ p < vc)))) := by
  by_cases hA : va = M
  · subst hA
    by_cases hB : vb = m
    · subst hB
      by_cases hC : vc = p
      · subst hC
        simp [matchesGreater, preCompare, ord_eq_beq_gt] <;> omega
      · simp [matchesGreater, hC] <;> omega
    · simp [matchesGreater, hB] <;> omega
  · simp [matchesGreater, hA] <;> omega

lemma mLess_nn (op : Op) (M va vb vc : Nat) :
    matchesLess ⟨op, M, none, none, []⟩ ⟨va, vb, vc, [], []⟩ = true ↔ va < M := by
  by_cases hA : va = M
  · subst hA
    simp [matchesLess] <;> omega
  · simp [matchesLess, hA] <;> omega

lemma mLess_sn (op : Op) (M m va vb vc : Nat) :
    matchesLess ⟨op, M, some m, none, []⟩ ⟨va, vb, vc, [], []⟩ = true
      ↔ (va < M ∨ (va = M ∧ vb < m)) := by
  by_cases hA : va = M
  · subst hA
    by_cases hB : vb = m
    · subst hB
      simp [matchesLess] <;> omega
    · simp [matchesLess, hB] <;> omega
  · simp [matchesLess, hA] <;> omega

lemma mLess_ss (op : Op) (M m p va vb vc : Nat) :
    matchesLess ⟨op, M, some m, some p, []⟩ ⟨va, vb, vc, [], []⟩ = true
      ↔ (va < M ∨ (va = M ∧ (vb < m ∨ (vb = m ∧ vc < p)))) := by
  by_cases hA : va = M
  · subst hA
    by_cases hB : vb = m
    · subst hB
      by_cases hC : vc = p
      · subst hC
        simp [matchesLess, preCompare, ord_eq_beq_lt] <;> omega
      · simp [matchesLess, hC] <;> omega
    · simp [matchesLess, hB] <;> omega
  · simp [matchesLess, hA] <;> omega

lemma mTilde_nn (op : Op) (M va vb vc : Nat) :
    matchesTilde ⟨op, M, none, none, []⟩ ⟨va, vb, vc, [], []⟩ = true ↔ va = M := by
  by_cases hA : va = M
  · subst hA
    simp [matchesTilde, preCompare, ord_eq_bne_lt]
  · simp [matchesTilde, hA]

lemma mTilde_sn (op : Op) (M m va vb vc : Nat) :
    matchesTilde ⟨op, M, some m, none, []⟩ ⟨va, vb, vc, [], []⟩ = true
      ↔ (va = M ∧ vb = m) := by
  by_cases hA : va = M
  · subst hA
    by_cases hB : vb = m
    · subst hB
      simp [matchesTilde, preCompare, ord_eq_bne_lt]
    · simp [matchesTilde, hB] <;> omega
  · simp [matchesTilde, hA] <;> omega

lemma mTilde_ss (op : Op) (M m p va vb vc : Nat) :
    matchesTilde ⟨op, M, some m, some p, []⟩ ⟨va, vb, vc, [], []⟩ = true
      ↔ (va = M ∧ vb = m ∧ p ≤ vc) := by
  by_cases hA : va = M
  · subst hA
    by_cases hB : vb = m
    · subst hB
      by_cases hC : vc = p
      · subst hC
        simp [matchesTilde, preCompare, ord_eq_bne_lt] <;> omega
      · simp [matchesTilde, hC] <;> omega
    · simp [matchesTilde, hB] <;> omega
  · simp [matchesTilde, hA] <;> omega

lemma mCaret_nn (op : Op) (M va vb vc : Nat) :
    matchesCaret ⟨op, M, none, none, []⟩ ⟨va, vb, vc, [], []⟩ = true ↔ va = M := by
  by_cases hA : va = M
  · subst hA
    simp [matchesCaret]
  · simp [matchesCaret, hA]

lemma mCaret_sn (op : Op) (M m va vb vc : Nat) :
    matchesCaret ⟨op, M, some m, none, []⟩ ⟨va, vb, vc, [], []⟩ = true
      ↔ (va = M ∧ ((0 < M ∧ m ≤ vb) ∨ (M = 0 ∧ vb = m))) := by
  by_cases hM : 0 < M <;> by_cases hA : va = M <;>
    simp [matchesCaret, hA, hM] <;> omega

lemma mCaret_ss (op : Op) (M m p va vb vc : Nat) :
    matchesCaret ⟨op, M, some m, some p, []⟩ ⟨va, vb, vc, [], []⟩ = true
      ↔ (va = M ∧ ((0 < M ∧ (m < vb ∨ (vb = m ∧ p ≤ vc)))
          ∨ (M = 0 ∧ 0 < m ∧ vb = m ∧ p ≤ vc)
          ∨ (M = 0 ∧ m = 0 ∧ vb = 0 ∧ vc = p))) := by
  by_cases hM : 0 < M <;> by_cases hm : 0 < m <;> by_cases hA : va = M <;>
    by_cases hB : vb = m <;> by_cases hC : vc = p <;>
    simp [matchesCaret, hA, hB, hC, hM, hm, preCompare, ord_eq_bne_lt] <;> omega

lemma caret_range_ss_pos (M m p : Nat) (hM : 0 < M) :
    rangesCaret M (some m) (some p)
      = some ⟨.included ⟨M, m, p, [], []⟩, .excluded ⟨M + 1, 0, 0, [], []⟩⟩ := by
  simp [rangesCaret, rangesExact, rangesGreaterEq, rangesLess, VRanges.intersection, VRanges.higherThan, VRanges.strictlyLowerThan, VRanges.singleton, Version.new, loMax, hiMin, hM]

lemma caret_range_ss_zpos (m p : Nat) (hm : 0 < m) :
    rangesCaret 0 (some m) (some p)
      = some ⟨.included ⟨0, m, p, [], []⟩, .excluded ⟨0, m + 1, 0, [], []⟩⟩ := by
  simp [rangesCaret, rangesExact, rangesGreaterEq, rangesLess, VRanges.intersection, VRanges.higherThan, VRanges.strictlyLowerThan, VRanges.singleton, Version.new, loMax, hiMin, hm]

lemma caret_range_ss_zz (p : Nat) :
    rangesCaret 0 (some 0) (some p)
      = some ⟨.included ⟨0, 0, p, [], []⟩, .included ⟨0, 0, p, [], []⟩⟩ := by
  simp [rangesCaret, rangesExact, rangesGreaterEq, rangesLess, VRanges.intersection, VRanges.higherThan, VRanges.strictlyLowerThan, VRanges.singleton, Version.new, loMax, hiMin]

lemma caret_range_sn_pos (M m : Nat) (hM : 0 < M) :
    rangesCaret M (some m) none
      = some ⟨.included ⟨M, m, 0, [], []⟩, .excluded ⟨M + 1, 0, 0, [], []⟩⟩ := by
  simp [rangesCaret, rangesExact, rangesGreaterEq, rangesLess, VRanges.intersection, VRanges.higherThan, VRanges.strictlyLowerThan, VRanges.singleton, Version.new, loMax, hiMin, hM]

lemma caret_range_sn_zpos (m : Nat) (hm : 0 < m) :
    rangesCaret 0 (some m) none
      = some ⟨.included ⟨0, m, 0, [], []⟩, .excluded ⟨0, m + 1, 0, [], []⟩⟩ := by
  simp [rangesCaret, rangesExact, rangesGreaterEq, rangesLess, VRanges.intersection, VRanges.higherThan, VRanges.strictlyLowerThan, VRanges.singleton, Version.new, loMax, hiMin, hm]

lemma caret_range_sn_zz :
    rangesCaret 0 (some 0) none
      = some ⟨.included ⟨0, 0, 0, [], []⟩, .excluded ⟨0, 1, 0, [], []⟩⟩ := by
  simp [rangesCaret, rangesExact, rangesGreaterEq, rangesLess, VRanges.intersection, VRanges.higherThan, VRanges.strictlyLowerThan, VRanges.singleton, Version.new, loMax, hiMin]

lemma caret_range_nn (M : Nat) :
    rangesCaret M none none
      = some ⟨.included ⟨M, 0, 0, [], []⟩, .excluded ⟨M + 1, 0, 0, [], []⟩⟩ := by
  simp [rangesCaret, rangesExact, rangesGreaterEq, rangesLess, VRanges.intersection, VRanges.higherThan, VRanges.strictlyLowerThan, VRanges.singleton, Version.new, loMax, hiMin]

lemma cmp_correct (c : Comparator) (v : Version) (hcpre : c.pre = [])
    (hwf : wfCmp c) (hv : relV v) :
    ∃ r, rangesForCmp c = some r ∧ relR r ∧ r.containsB v = matchesImpl c v := by
  obtain ⟨op, M, mi, pa, cpre⟩ := c
  obtain ⟨va, vb, vc, vpre, vbld⟩ := v
  have hv1 : vpre = [] := hv.1
  have hv2 : vbld = [] := hv.2
  subst hv1; subst hv2
  have hc1 : cpre = [] := hcpre
  subst hc1
  have hwf1 : mi = none → pa = none := hwf.1
  have hwf2 : op = Op.wildcard → pa = none := hwf.2
  cases op with
  | exact =>
    rcases mi with _ | m
    · rcases pa with _ | p
      · refine ⟨⟨.included ⟨M, 0, 0, [], []⟩, .excluded ⟨M + 1, 0, 0, [], []⟩⟩, rfl, ⟨⟨rfl, rfl⟩, ⟨rfl, rfl⟩⟩, ?_⟩
        simp only [matchesImpl]
        rw [Bool.eq_iff_iff]
        simp only [VRanges.containsB, loOk, hiOk, Bool.and_eq_true, Bool.or_eq_true,
          vleB_rel, vltB_rel, eq_self_iff_true, true_and, and_true,
          mExact_nn, mExact_sn, mExact_ss, mGreater_nn, mGreater_sn, mGreater_ss,
          mLess_nn, mLess_sn, mLess_ss, mTilde_nn, mTilde_sn, mTilde_ss,
          mCaret_nn, mCaret_sn, mCaret_ss]
        all_goals omega
      · exact absurd (hwf1 rfl) (by simp)
    · rcases pa with _ | p
      · refine ⟨⟨.included ⟨M, m, 0, [], []⟩, .excluded ⟨M, m + 1, 0, [], []⟩⟩, rfl, ⟨⟨rfl, rfl⟩, ⟨rfl, rfl⟩⟩, ?_⟩
        simp only [matchesImpl]
        rw [Bool.eq_iff_iff]
        simp only [VRanges.containsB, loOk, hiOk, Bool.and_eq_true, Bool.or_eq_true,
          vleB_rel, vltB_rel, eq_self_iff_true, true_and, and_true,
          mExact_nn, mExact_sn, mExact_ss, mGreater_nn, mGreater_sn, mGreater_ss,
          mLess_nn, mLess_sn, mLess_ss, mTilde_nn, mTilde_sn, mTilde_ss,
          mCaret_nn, mCaret_sn, mCaret_ss]
        all_goals omega
      · refine ⟨⟨.included ⟨M, m, p, [], []⟩, .included ⟨M, m, p, [], []⟩⟩, rfl, ⟨⟨rfl, rfl⟩, ⟨rfl, rfl⟩⟩, ?_⟩
        simp only [matchesImpl]
        rw [Bool.eq_iff_iff]
        simp only [VRanges.containsB, loOk, hiOk, Bool.and_eq_true, Bool.or_eq_true,
          vleB_rel, vltB_rel, eq_self_iff_true, true_and, and_true,
          mExact_nn, mExact_sn, mExact_ss, mGreater_nn, mGreater_sn, mGreater_ss,
          mLess_nn, mLess_sn, mLess_ss, mTilde_nn, mTilde_sn, mTilde_ss,
          mCaret_nn, mCaret_sn, mCaret_ss]
        all_goals omega
  | greater =>
    rcases mi with _ | m
    · rcases pa with _ | p
      · refine ⟨⟨.included ⟨M + 1, 0, 0, [], []⟩, .unbounded⟩, rfl, ⟨⟨rfl, rfl⟩, trivial⟩, ?_⟩
        simp only [matchesImpl]
        rw [Bool.eq_iff_iff]
        simp only [VRanges.containsB, loOk, hiOk, Bool.and_eq_true, Bool.or_eq_true,
          vleB_rel, vltB_rel, eq_self_iff_true, true_and, and_true,
          mExact_nn, mExact_sn, mExact_ss, mGreater_nn, mGreater_sn, mGreater_ss,
          mLess_nn, mLess_sn, mLess_ss, mTilde_nn, mTilde_sn, mTilde_ss,
          mCaret_nn, mCaret_sn, mCaret_ss]
        all_goals omega
      · exact absurd (hwf1 rfl) (by simp)
    · rcases pa with _ | p
      · refine ⟨⟨.included ⟨M, m + 1, 0, [], []⟩, .unbounded⟩, rfl, ⟨⟨rfl, rfl⟩, trivial⟩, ?_⟩
        simp only [matchesImpl]
        rw [Bool.eq_iff_iff]
        simp only [VRanges.containsB, loOk, hiOk, Bool.and_eq_true, Bool.or_eq_true,
          vleB_rel, vltB_rel, eq_self_iff_true, true_and, and_true,
          mExact_nn, mExact_sn, mExact_ss, mGreater_nn, mGreater_sn, mGreater_ss,
          mLess_nn, mLess_sn, mLess_ss, mTilde_nn, mTilde_sn, mTilde_ss,
          mCaret_nn, mCaret_sn, mCaret_ss]
        all_goals omega
      · refine ⟨⟨.excluded ⟨M, m, p, [], []⟩, .unbounded⟩, rfl, ⟨⟨rfl, rfl⟩, trivial⟩, ?_⟩
        simp only [matchesImpl]
        rw [Bool.eq_iff_iff]
        simp only [VRanges.containsB, loOk, hiOk, Bool.and_eq_true, Bool.or_eq_true,
          vleB_rel, vltB_rel, eq_self_iff_true, true_and, and_true,
          mExact_nn, mExact_sn, mExact_ss, mGreater_nn, mGreater_sn, mGreater_ss,
          mLess_nn, mLess_sn, mLess_ss, mTilde_nn, mTilde_sn, mTilde_ss,
          mCaret_nn, mCaret_sn, mCaret_ss]
        all_goals omega
  | greaterEq =>
    rcases mi with _ | m
    · rcases pa with _ | p
      · refine ⟨⟨.included ⟨M, 0, 0, [], []⟩, .unbounded⟩, rfl, ⟨⟨rfl, rfl⟩, trivial⟩, ?_⟩
        simp only [matchesImpl]
        rw [Bool.eq_iff_iff]
        simp only [VRanges.containsB, loOk, hiOk, Bool.and_eq_true, Bool.or_eq_true,
          vleB_rel, vltB_rel, eq_self_iff_true, true_and, and_true,
          mExact_nn, mExact_sn, mExact_ss, mGreater_nn, mGreater_sn, mGreater_ss,
          mLess_nn, mLess_sn, mLess_ss, mTilde_nn, mTilde_sn, mTilde_ss,
          mCaret_nn, mCaret_sn, mCaret_ss]
        all_goals omega
      · exact absurd (hwf1 rfl) (by simp)
    · rcases pa with _ | p
      · refine ⟨⟨.included ⟨M, m, 0, [], []⟩, .unbounded⟩, rfl, ⟨⟨rfl, rfl⟩, trivial⟩, ?_⟩
        simp only [matchesImpl]
        rw [Bool.eq_iff_iff]
        simp only [VRanges.containsB, loOk, hiOk, Bool.and_eq_true, Bool.or_eq_true,
          vleB_rel, vltB_rel, eq_self_iff_true, true_and, and_true,
          mExact_nn, mExact_sn, mExact_ss, mGreater_nn, mGreater_sn, mGreater_ss,
          mLess_nn, mLess_sn, mLess_ss, mTilde_nn, mTilde_sn, mTilde_ss,
          mCaret_nn, mCaret_sn, mCaret_ss]
        all_goals omega
      · refine ⟨⟨.included ⟨M, m, p, [], []⟩, .unbounded⟩, rfl, ⟨⟨rfl, rfl⟩, trivial⟩, ?_⟩
        simp only [matchesImpl]
        rw [Bool.eq_iff_iff]
        simp only [VRanges.containsB, loOk, hiOk, Bool.and_eq_true, Bool.or_eq_true,
          vleB_rel, vltB_rel, eq_self_iff_true, true_and, and_true,
          mExact_nn, mExact_sn, mExact_ss, mGreater_nn, mGreater_sn, mGreater_ss,
          mLess_nn, mLess_sn, mLess_ss, mTilde_nn, mTilde_sn, mTilde_ss,
          mCaret_nn, mCaret_sn, mCaret_ss]
        all_goals omega
  | less =>
    rcases mi with _ | m
    · rcases pa with _ | p
      · refine ⟨⟨.unbounded, .excluded ⟨M, 0, 0, [], []⟩⟩, rfl, ⟨trivial, ⟨rfl, rfl⟩⟩, ?_⟩
        simp only [matchesImpl]
        rw [Bool.eq_iff_iff]
        simp only [VRanges.containsB, loOk, hiOk, Bool.and_eq_true, Bool.or_eq_true,
          vleB_rel, vltB_rel, eq_self_iff_true, true_and, and_true,
          mExact_nn, mExact_sn, mExact_ss, mGreater_nn, mGreater_sn, mGreater_ss,
          mLess_nn, mLess_sn, mLess_ss, mTilde_nn, mTilde_sn, mTilde_ss,
          mCaret_nn, mCaret_sn, mCaret_ss]
        all_goals omega
      · exact absurd (hwf1 rfl) (by simp)
    · rcases pa with _ | p
      · refine ⟨⟨.unbounded, .excluded ⟨M, m, 0, [], []⟩⟩, rfl, ⟨trivial, ⟨rfl, rfl⟩⟩, ?_⟩
        simp only [matchesImpl]
        rw [Bool.eq_iff_iff]
        simp only [VRanges.containsB, loOk, hiOk, Bool.and_eq_true, Bool.or_eq_true,
          vleB_rel, vltB_rel, eq_self_iff_true, true_and, and_true,
          mExact_nn, mExact_sn, mExact_ss, mGreater_nn, mGreater_sn, mGreater_ss,
          mLess_nn, mLess_sn, mLess_ss, mTilde_nn, mTilde_sn, mTilde_ss,
          mCaret_nn, mCaret_sn, mCaret_ss]
        all_goals omega
      · refine ⟨⟨.unbounded, .excluded ⟨M, m, p, [], []⟩⟩, rfl, ⟨trivial, ⟨rfl, rfl⟩⟩, ?_⟩
        simp only [matchesImpl]
        rw [Bool.eq_iff_iff]
        simp only [VRanges.containsB, loOk, hiOk, Bool.and_eq_true, Bool.or_eq_true,
          vleB_rel, vltB_rel, eq_self_iff_true, true_and, and_true,
          mExact_nn, mExact_sn, mExact_ss, mGreater_nn, mGreater_sn, mGreater_ss,
          mLess_nn, mLess_sn, mLess_ss, mTilde_nn, mTilde_sn, mTilde_ss,
          mCaret_nn, mCaret_sn, mCaret_ss]
        all_goals omega
  | lessEq =>
    rcases mi with _ | m
    · rcases pa with _ | p
      · refine ⟨⟨.unbounded, .excluded ⟨M + 1, 0, 0, [], []⟩⟩, rfl, ⟨trivial, ⟨rfl, rfl⟩⟩, ?_⟩
        simp only [matchesImpl]
        rw [Bool.eq_iff_iff]
        simp only [VRanges.containsB, loOk, hiOk, Bool.and_eq_true, Bool.or_eq_true,
          vleB_rel, vltB_rel, eq_self_iff_true, true_and, and_true,
          mExact_nn, mExact_sn, mExact_ss, mGreater_nn, mGreater_sn, mGreater_ss,
          mLess_nn, mLess_sn, mLess_ss, mTilde_nn, mTilde_sn, mTilde_ss,
          mCaret_nn, mCaret_sn, mCaret_ss]
        all_goals omega
      · exact absurd (hwf1 rfl) (by simp)
    · rcases pa with _ | p
      · refine ⟨⟨.unbounded, .excluded ⟨M, m + 1, 0, [], []⟩⟩, rfl, ⟨trivial, ⟨rfl, rfl⟩⟩, ?_⟩
        simp only [matchesImpl]
        rw [Bool.eq_iff_iff]
        simp only [VRanges.containsB, loOk, hiOk, Bool.and_eq_true, Bool.or_eq_true,
          vleB_rel, vltB_rel, eq_self_iff_true, true_and, and_true,
          mExact_nn, mExact_sn, mExact_ss, mGreater_nn, mGreater_sn, mGreater_ss,
          mLess_nn, mLess_sn, mLess_ss, mTilde_nn, mTilde_sn, mTilde_ss,
          mCaret_nn, mCaret_sn, mCaret_ss]
        all_goals omega
      · refine ⟨⟨.unbounded, .included ⟨M, m, p, [], []⟩⟩, rfl, ⟨trivial, ⟨rfl, rfl⟩⟩, ?_⟩
        simp only [matchesImpl]
        rw [Bool.eq_iff_iff]
        simp only [VRanges.containsB, loOk, hiOk, Bool.and_eq_true, Bool.or_eq_true,
          vleB_rel, vltB_rel, eq_self_iff_true, true_and, and_true,
          mExact_nn, mExact_sn, mExact_ss, mGreater_nn, mGreater_sn, mGreater_ss,
          mLess_nn, mLess_sn, mLess_ss, mTilde_nn, mTilde_sn, mTilde_ss,
          mCaret_nn, mCaret_sn, mCaret_ss]
        all_goals omega
  | tilde =>
    rcases mi with _ | m
    · rcases pa with _ | p
      · refine ⟨⟨.included ⟨M, 0, 0, [], []⟩, .excluded ⟨M + 1, 0, 0, [], []⟩⟩, rfl, ⟨⟨rfl, rfl⟩, ⟨rfl, rfl⟩⟩, ?_⟩
        simp only [matchesImpl]
        rw [Bool.eq_iff_iff]
        simp only [VRanges.containsB, loOk, hiOk, Bool.and_eq_true, Bool.or_eq_true,
          vleB_rel, vltB_rel, eq_self_iff_true, true_and, and_true,
          mExact_nn, mExact_sn, mExact_ss, mGreater_nn, mGreater_sn, mGreater_ss,
          mLess_nn, mLess_sn, mLess_ss, mTilde_nn, mTilde_sn, mTilde_ss,
          mCaret_nn, mCaret_sn, mCaret_ss]
        all_goals omega
      · exact absurd (hwf1 rfl) (by simp)
    · rcases pa with _ | p
      · refine ⟨⟨.included ⟨M, m, 0, [], []⟩, .excluded ⟨M, m + 1, 0, [], []⟩⟩, rfl, ⟨⟨rfl, rfl⟩, ⟨rfl, rfl⟩⟩, ?_⟩
        simp only [matchesImpl]
        rw [Bool.eq_iff_iff]
        simp only [VRanges.containsB, loOk, hiOk, Bool.and_eq_true, Bool.or_eq_true,
          vleB_rel, vltB_rel, eq_self_iff_true, true_and, and_true,
          mExact_nn, mExact_sn, mExact_ss, mGreater_nn, mGreater_sn, mGreater_ss,
          mLess_nn, mLess_sn, mLess_ss, mTilde_nn, mTilde_sn, mTilde_ss,
          mCaret_nn, mCaret_sn, mCaret_ss]
        all_goals omega
      · refine ⟨⟨.included ⟨M, m, p, [], []⟩, .excluded ⟨M, m + 1, 0, [], []⟩⟩, rfl, ⟨⟨rfl, rfl⟩, ⟨rfl, rfl⟩⟩, ?_⟩
        simp only [matchesImpl]
        rw [Bool.eq_iff_iff]
        simp only [VRanges.containsB, loOk, hiOk, Bool.and_eq_true, Bool.or_eq_true,
          vleB_rel, vltB_rel, eq_self_iff_true, true_and, and_true,
          mExact_nn, mExact_sn, mExact_ss, mGreater_nn, mGreater_sn, mGreater_ss,
          mLess_nn, mLess_sn, mLess_ss, mTilde_nn, mTilde_sn, mTilde_ss,
          mCaret_nn, mCaret_sn, mCaret_ss]
        all_goals omega
  | caret =>
    rcases mi with _ | m
    · rcases pa with _ | p
      · refine ⟨⟨.included ⟨M, 0, 0, [], []⟩, .excluded ⟨M + 1, 0, 0, [], []⟩⟩, caret_range_nn M, ⟨⟨rfl, rfl⟩, ⟨rfl, rfl⟩⟩, ?_⟩
        simp only [matchesImpl]
        rw [Bool.eq_iff_iff]
        simp only [VRanges.containsB, loOk, hiOk, Bool.and_eq_true, Bool.or_eq_true,
          vleB_rel, vltB_rel, eq_self_iff_true, true_and, and_true,
          mExact_nn, mExact_sn, mExact_ss, mGreater_nn, mGreater_sn, mGreater_ss,
          mLess_nn, mLess_sn, mLess_ss, mTilde_nn, mTilde_sn, mTilde_ss,
          mCaret_nn, mCaret_sn, mCaret_ss]
        all_goals omega
      · exact absurd (hwf1 rfl) (by simp)
    · rcases pa with _ | p
      · by_cases hM : 0 < M
        · refine ⟨⟨.included ⟨M, m, 0, [], []⟩, .excluded ⟨M + 1, 0, 0, [], []⟩⟩, caret_range_sn_pos M m hM, ⟨⟨rfl, rfl⟩, ⟨rfl, rfl⟩⟩, ?_⟩
          simp only [matchesImpl]
          rw [Bool.eq_iff_iff]
          simp only [VRanges.containsB, loOk, hiOk, Bool.and_eq_true, Bool.or_eq_true,
            vleB_rel, vltB_rel, eq_self_iff_true, true_and, and_true,
            mExact_nn, mExact_sn, mExact_ss, mGreater_nn, mGreater_sn, mGreater_ss,
            mLess_nn, mLess_sn, mLess_ss, mTilde_nn, mTilde_sn, mTilde_ss,
            mCaret_nn, mCaret_sn, mCaret_ss]
          all_goals omega
        · have hM0 : M = 0 := by omega
          subst hM0
          by_cases hm : 0 < m
          · refine ⟨⟨.included ⟨0, m, 0, [], []⟩, .excluded ⟨0, m + 1, 0, [], []⟩⟩, caret_range_sn_zpos m hm, ⟨⟨rfl, rfl⟩, ⟨rfl, rfl⟩⟩, ?_⟩
            simp only [matchesImpl]
            rw [Bool.eq_iff_iff]
            simp only [VRanges.containsB, loOk, hiOk, Bool.and_eq_true, Bool.or_eq_true,
              vleB_rel, vltB_rel, eq_self_iff_true, true_and, and_true,
              mExact_nn, mExact_sn, mExact_ss, mGreater_nn, mGreater_sn, mGreater_ss,
              mLess_nn, mLess_sn, mLess_ss, mTilde_nn, mTilde_sn, mTilde_ss,
              mCaret_nn, mCaret_sn, mCaret_ss]
            all_goals omega
          · have hm0 : m = 0 := by omega
            subst hm0
            refine ⟨⟨.included ⟨0, 0, 0, [], []⟩, .excluded ⟨0, 1, 0, [], []⟩⟩, caret_range_sn_zz, ⟨⟨rfl, rfl⟩, ⟨rfl, rfl⟩⟩, ?_⟩
            simp only [matchesImpl]
            rw [Bool.eq_iff_iff]
            simp only [VRanges.containsB, loOk, hiOk, Bool.and_eq_true, Bool.or_eq_true,
              vleB_rel, vltB_rel, eq_self_iff_true, true_and, and_true,
              mExact_nn, mExact_sn, mExact_ss, mGreater_nn, mGreater_sn, mGreater_ss,
              mLess_nn, mLess_sn, mLess_ss, mTilde_nn, mTilde_sn, mTilde_ss,
              mCaret_nn, mCaret_sn, mCaret_ss]
            all_goals omega
      · by_cases hM : 0 < M
        · refine ⟨⟨.included ⟨M, m, p, [], []⟩, .excluded ⟨M + 1, 0, 0, [], []⟩⟩, caret_range_ss_pos M m p hM, ⟨⟨rfl, rfl⟩, ⟨rfl, rfl⟩⟩, ?_⟩
          simp only [matchesImpl]
          rw [Bool.eq_iff_iff]
          simp only [VRanges.containsB, loOk, hiOk, Bool.and_eq_true, Bool.or_eq_true,
            vleB_rel, vltB_rel, eq_self_iff_true, true_and, and_true,
            mExact_nn, mExact_sn, mExact_ss, mGreater_nn, mGreater_sn, mGreater_ss,
            mLess_nn, mLess_sn, mLess_ss, mTilde_nn, mTilde_sn, mTilde_ss,
            mCaret_nn, mCaret_sn, mCaret_ss]
          all_goals omega
        · have hM0 : M = 0 := by omega
          subst hM0
          by_cases hm : 0 < m
          · refine ⟨⟨.included ⟨0, m, p, [], []⟩, .excluded ⟨0, m + 1, 0, [], []⟩⟩, caret_range_ss_zpos m p hm, ⟨⟨rfl, rfl⟩, ⟨rfl, rfl⟩⟩, ?_⟩
            simp only [matchesImpl]
            rw [Bool.eq_iff_iff]
            simp only [VRanges.containsB, loOk, hiOk, Bool.and_eq_true, Bool.or_eq_true,
              vleB_rel, vltB_rel, eq_self_iff_true, true_and, and_true,
              mExact_nn, mExact_sn, mExact_ss, mGreater_nn, mGreater_sn, mGreater_ss,
              mLess_nn, mLess_sn, mLess_ss, mTilde_nn, mTilde_sn, mTilde_ss,
              mCaret_nn, mCaret_sn, mCaret_ss]
            all_goals omega
          · have hm0 : m = 0 := by omega
            subst hm0
            refine ⟨⟨.included ⟨0, 0, p, [], []⟩, .included ⟨0, 0, p, [], []⟩⟩, caret_range_ss_zz p, ⟨⟨rfl, rfl⟩, ⟨rfl, rfl⟩⟩, ?_⟩
            simp only [matchesImpl]
            rw [Bool.eq_iff_iff]
            simp only [VRanges.containsB, loOk, hiOk, Bool.and_eq_true, Bool.or_eq_true,
              vleB_rel, vltB_rel, eq_self_iff_true, true_and, and_true,
              mExact_nn, mExact_sn, mExact_ss, mGreater_nn, mGreater_sn, mGreater_ss,
              mLess_nn, mLess_sn, mLess_ss, mTilde_nn, mTilde_sn, mTilde_ss,
              mCaret_nn, mCaret_sn, mCaret_ss]
            all_goals omega
  | wildcard =>
    have hpa : pa = none := hwf2 rfl
    subst hpa
    rcases mi with _ | m
    · refine ⟨⟨.included ⟨M, 0, 0, [], []⟩, .excluded ⟨M + 1, 0, 0, [], []⟩⟩, rfl, ⟨⟨rfl, rfl⟩, ⟨rfl, rfl⟩⟩, ?_⟩
      simp only [matchesImpl]
      rw [Bool.eq_iff_iff]
      simp only [VRanges.containsB, loOk, hiOk, Bool.and_eq_true, Bool.or_eq_true,
        vleB_rel, vltB_rel, eq_self_iff_true, true_and, and_true,
        mExact_nn, mExact_sn, mExact_ss, mGreater_nn, mGreater_sn, mGreater_ss,
        mLess_nn, mLess_sn, mLess_ss, mTilde_nn, mTilde_sn, mTilde_ss,
        mCaret_nn, mCaret_sn, mCaret_ss]
      all_goals omega
    · refine ⟨⟨.included ⟨M, m, 0, [], []⟩, .excluded ⟨M, m + 1, 0, [], []⟩⟩, rfl, ⟨⟨rfl, rfl⟩, ⟨rfl, rfl⟩⟩, ?_⟩
      simp only [matchesImpl]
      rw [Bool.eq_iff_iff]
      simp only [VRanges.containsB, loOk, hiOk, Bool.and_eq_true, Bool.or_eq_true,
        vleB_rel, vltB_rel, eq_self_iff_true, true_and, and_true,
        mExact_nn, mExact_sn, mExact_ss, mGreater_nn, mGreater_sn, mGreater_ss,
        mLess_nn, mLess_sn, mLess_ss, mTilde_nn, mTilde_sn, mTilde_ss,
        mCaret_nn, mCaret_sn, mCaret_ss]
      all_goals omega

lemma rangesForAux_correct (v : Version) (hv : relV v) :
    ∀ (req : List Comparator), (∀ c ∈ req, c.pre = []) → (∀ c ∈ req, wfCmp c) →
    ∀ acc, relR acc →
    ∃ r, rangesForAux acc req = some r ∧ relR r
      ∧ (r.containsB v = (acc.containsB v && req.all (fun c => matchesImpl c v))) := by
  intro req
  induction req with
  | nil =>
    intro _ _ acc hacc
    exact ⟨acc, rfl, hacc, by simp⟩
  | cons c rest ih =>
    intro hpre hwf acc hacc
    obtain ⟨rc, hrc, hrcrel, hrceq⟩ := cmp_correct c v (hpre c (List.mem_cons_self c rest))
      (hwf c (List.mem_cons_self c rest)) hv
    obtain ⟨r, hr, hrrel, hreq⟩ := ih (fun c2 h2 => hpre c2 (List.mem_cons_of_mem c h2))
      (fun c2 h2 => hwf c2 (List.mem_cons_of_mem c h2)) (acc.intersection rc)
      (inter_rel hacc hrcrel)
    refine ⟨r, ?_, hrrel, ?_⟩
    · rw [show rangesForAux acc (c :: rest)
          = (match rangesForCmp c with
             | none => none
             | some r2 => rangesForAux (acc.intersection r2) rest) from rfl, hrc]
      exact hr
    · rw [hreq, inter_containsB hacc hrcrel hv, hrceq]
      simp only [List.all_cons]
      cases acc.containsB v <;> cases matchesImpl c v <;>
        cases rest.all (fun c2 => matchesImpl c2 v) <;> rfl

/-- C2 counterexample: the requirement `>=1.0.0` against the pre-release
version `1.0.1-alpha`: the range built by `ranges_for` contains it, but
standard semver matching rejects it (a pre-release only matches a
comparator carrying a pre-release on the same triple). -/
theorem ranges_for_matches_cex :
    rangesFor [⟨Op.greaterEq, 1, some 0, some 0, []⟩]
      = some ⟨.included ⟨1, 0, 0, [], []⟩, .unbounded⟩
    ∧ (VRanges.mk (.included ⟨1, 0, 0, [], []⟩) .unbounded).containsB
        ⟨1, 0, 1, [PreId.alpha "alpha"], []⟩ = true
    ∧ matchesReq [⟨Op.greaterEq, 1, some 0, some 0, []⟩]
        ⟨1, 0, 1, [PreId.alpha "alpha"], []⟩ = false := by
  refine ⟨rfl, rfl, rfl⟩

/-- C2 amended: for every requirement whose comparators carry no
pre-release component and are parser-well-formed, and every version with
neither pre-release nor build metadata, `ranges_for(req)` contains `v` iff
`req.matches(v)`.  (Pre-release versions break the equivalence, as do
comparators with pre-release components and build metadata, since the range
translation ignores pre-release/build entirely.) -/
theorem ranges_for_matches (req : List Comparator) (v : Version)
    (hpre : ∀ c ∈ req, c.pre = []) (hwf : ∀ c ∈ req, wfCmp c)
    (hv : v.pre = [] ∧ v.build = []) :
    ∃ r, rangesFor req = some r ∧ r.containsB v = matchesReq req v := by
  obtain ⟨r, hr, hrrel, heq⟩ := rangesForAux_correct v hv req hpre hwf VRanges.full
    ⟨trivial, trivial⟩
  refine ⟨r, hr, ?_⟩
  rw [heq]
  unfold matchesReq
  rw [show VRanges.full.containsB v = true from rfl]
  rw [show v.pre.isEmpty = true from by rw [hv.1]; rfl]
  simp

/-- C2 witness: the amended theorem applied to the requirement `^1.2.3` and
the release version `1.5.0`. -/
theorem ranges_for_matches_witness :
    ∃ r, rangesFor [⟨Op.caret, 1, some 2, some 3, []⟩] = some r
      ∧ r.containsB ⟨1, 5, 0, [], []⟩
          = matchesReq [⟨Op.caret, 1, some 2, some 3, []⟩] ⟨1, 5, 0, [], []⟩ :=
  ranges_for_matches [⟨Op.caret, 1, some 2, some 3, []⟩] ⟨1, 5, 0, [], []⟩
    (by simp) (by simp [wfCmp]) ⟨rfl, rfl⟩

end Creeper
